import Mathlib

/-!
# getlexin-xml: the download manager and the listing parser

A shallow embedding of `internal/models/types.go`, `internal/parser/parser.go`,
`internal/fetcher/fetcher.go` and of the drain loop of `cmd/lexin/main.go`.

* A Go `string` is a sequence of bytes: `GoString := List UInt8`.
* A Go `error` is represented by its message; `nil` is `none`.
* Calls that leave the program (`os`, `net/http`, `io`, `encoding/xml`,
  `path/filepath`, `time`) are not interpreted: a `World` record fixes what
  each of them returns, and the embedded function is a function of that record.
  Besides its return value each function yields the list of external calls it
  made, in program order.
* `StartDownloads` starts goroutines; it is embedded as a transition system whose
  steps are the statements of the goroutines, chosen by a scheduler.
-/

/-- A Go string: an immutable sequence of bytes. -/
abbrev GoString := List UInt8

/-- A Go error value, represented by the text of `err.Error()`. -/
abbrev GoError := GoString

deriving instance DecidableEq for Except

/-- The bytes of a string literal of the source (its UTF-8 encoding). -/
def lit (s : String) : GoString := s.data.flatMap String.utf8EncodeChar

/-- Two's complement wrap-around of an `int64` result. -/
def wrapInt64 (x : Int) : Int := (x + 9223372036854775808) % 18446744073709551616 - 9223372036854775808

namespace strings

/-- Position of the first occurrence of `substr` in `s`, if there is one. -/
def indexOpt (s substr : GoString) : Option Nat :=
  match s with
  | [] => if substr.isPrefixOf [] then some 0 else none
  | c :: rest =>
    if substr.isPrefixOf (c :: rest) then some 0
    else (indexOpt rest substr).map (fun i => i + 1)

/-- Go `strings.Index`: the index of the first instance of `substr` in `s`, or `-1`. -/
def Index (s substr : GoString) : Int :=
  match indexOpt s substr with
  | some i => (i : Int)
  | none => -1

/-- Go `strings.HasSuffix`: `len(s) >= len(suffix) && s[len(s)-len(suffix):] == suffix`. -/
def HasSuffix (s suffix : GoString) : Bool :=
  decide (s.length ≥ suffix.length) && (s.drop (s.length - suffix.length) == suffix)

end strings

namespace models

/-- Go `xml.Name`. -/
structure XMLName where
  Space : GoString
  Local : GoString
  deriving DecidableEq, Repr

/-- The `updir` element. -/
structure Updir where
  XMLName : XMLName
  Href : GoString
  deriving DecidableEq, Repr

/-- The `file` element. -/
structure File where
  XMLName : XMLName
  Name : GoString
  Href : GoString
  deriving DecidableEq, Repr

/-- The `dir` element. -/
structure Dir where
  XMLName : XMLName
  Name : GoString
  Href : GoString
  deriving DecidableEq, Repr

/-- The `index` element. -/
structure Index where
  XMLName : XMLName
  Rev : GoString
  Path : GoString
  Base : GoString
  Updir : Option Updir
  Files : List File
  Dirs : List Dir
  deriving DecidableEq, Repr

/-- The `svn` root element. -/
structure SVN where
  XMLName : XMLName
  Version : GoString
  Href : GoString
  Index : Index
  deriving DecidableEq, Repr

/-- Directory represents a language directory. -/
structure Directory where
  Code : GoString
  Name : GoString
  URL : GoString
  Description : GoString
  Selected : Bool
  deriving DecidableEq, Repr

/-- DownloadResult stores information about a download operation.
`FileCount` is a Go `int` that only ever counts elements of a slice, `TotalBytes` an `int64`. -/
structure DownloadResult where
  Directory : Directory
  Success : Bool
  FileCount : Int
  Error : Option GoError
  TotalBytes : Int
  deriving DecidableEq, Repr

/-- LanguageMap translates directory codes to human-readable names. -/
def LanguageMap : List (GoString × GoString) :=
  [ (lit "albanska", lit "Albanian"),
    (lit "amhariska", lit "Amharic"),
    (lit "arabiska", lit "Arabic"),
    (lit "azerbajdzjanska", lit "Azerbaijani"),
    (lit "bosniska", lit "Bosnian"),
    (lit "engelska", lit "English"),
    (lit "finska", lit "Finnish"),
    (lit "grekiska", lit "Greek"),
    (lit "kroatiska", lit "Croatian"),
    (lit "nordkurdiska", lit "Northern Kurdish (Kurmanji)"),
    (lit "pashto", lit "Pashto"),
    (lit "persiska", lit "Persian (Farsi)"),
    (lit "ryska", lit "Russian"),
    (lit "serbiska", lit "Serbian"),
    (lit "somaliska", lit "Somali"),
    (lit "spanska", lit "Spanish"),
    (lit "svenska", lit "Swedish"),
    (lit "sydkurdiska", lit "Southern Kurdish (Sorani)"),
    (lit "tigrinska", lit "Tigrinya"),
    (lit "turkiska", lit "Turkish") ]

/-- The map access `LanguageMap[key]` with its `ok` flag. -/
def LanguageMap_get (key : GoString) : Option GoString :=
  (LanguageMap.find? (fun kv => kv.1 == key)).map (fun kv => kv.2)

end models

/-- What the program reads of an `*http.Response`. -/
structure Response where
  StatusCode : Int
  Status : GoString
  deriving DecidableEq, Repr

/-- Go `http.StatusOK`. -/
def StatusOK : Int := 200

namespace parser

/-- The declaration that `RemoveDOCTYPE` looks for. -/
def doctypeOpen : GoString := lit "<!DOCTYPE"

/-- The extension `ParseDirectoryContents` keeps. -/
def xmlExt : GoString := lit ".xml"

/-- RemoveDOCTYPE removes DOCTYPE declaration from XML string. -/
def RemoveDOCTYPE (xmlStr : GoString) : GoString :=
  let docTypeStart := strings.Index xmlStr doctypeOpen
  if docTypeStart = -1 then xmlStr
  else
    let docTypeEnd := strings.Index (xmlStr.drop docTypeStart.toNat) (lit ">")
    if docTypeEnd = -1 then xmlStr
    else xmlStr.take docTypeStart.toNat ++ xmlStr.drop (docTypeStart + docTypeEnd + 1).toNat

/-- ParseDirectoryContents parses a directory's XML content and returns XML filenames.
`Unmarshal` is `xml.Unmarshal` into a fresh `models.SVN`. -/
def ParseDirectoryContents (Unmarshal : GoString → Except GoError models.SVN)
    (xmlContent : GoString) : Except GoError (List models.File) :=
  let xmlContent := RemoveDOCTYPE xmlContent
  match Unmarshal xmlContent with
  | .error err => .error (lit "failed to parse directory XML: " ++ err)
  | .ok svn =>
    .ok (svn.Index.Files.foldl
      (fun xmlFiles file =>
        if strings.HasSuffix file.Href xmlExt then xmlFiles ++ [file] else xmlFiles) [])

/-- What the calls made by `FetchDirectories` return. -/
structure CatalogWorld where
  /-- Result of `http.Get(baseURL)`. -/
  get : Except GoError Response
  /-- Result of `io.ReadAll(resp.Body)`. -/
  readAll : Except GoError GoString
  /-- Go `xml.Unmarshal` into a fresh `models.SVN`. -/
  Unmarshal : GoString → Except GoError models.SVN
  /-- Go `strings.Title`. -/
  Title : GoString → GoString

/-- FetchDirectories fetches and parses the directory list from the lexin site. -/
def FetchDirectories (w : CatalogWorld) (baseURL : GoString) :
    Except GoError (List models.Directory) :=
  match w.get with
  | .error err => .error (lit "failed to fetch URL: " ++ err)
  | .ok _resp =>
    match w.readAll with
    | .error err => .error (lit "failed to read response body: " ++ err)
    | .ok body =>
      let xmlData := RemoveDOCTYPE body
      match w.Unmarshal xmlData with
      | .error err => .error (lit "failed to parse XML: " ++ err)
      | .ok svn =>
        .ok (svn.Index.Dirs.foldl
          (fun directories dir =>
            let langName :=
              match models.LanguageMap_get dir.Name with
              | some name => name
              | none => w.Title dir.Name
            directories ++ [{ Code := dir.Name
                              Name := langName
                              URL := baseURL ++ dir.Href
                              Description := lit "Swedish-" ++ langName ++ lit " lexicon"
                              Selected := false }]) [])

end parser

namespace fetcher

/-- DownloadManager handles concurrent downloads. The `Results` channel is part of the
state of the transition system further down. -/
structure DownloadManager where
  Concurrency : Nat
  OutputDir : GoString
  deriving DecidableEq, Repr

/-- One call that leaves the program, as recorded in the order the calls are made. -/
inductive Effect where
  /-- Go `os.MkdirAll(path, 0755)`. -/
  | MkdirAll (path : GoString)
  /-- Go `http.Get(url)`. -/
  | Get (url : GoString)
  /-- Go `io.ReadAll(resp.Body)` on the response of `Get url`. -/
  | ReadAll (url : GoString)
  /-- Go `os.WriteFile(name, data, 0644)`. -/
  | WriteFile (name data : GoString)
  /-- Go `xml.Unmarshal(data, &svn)`. -/
  | Unmarshal (data : GoString)
  /-- Go `os.Create(name)`. -/
  | Create (name : GoString)
  /-- Go `io.Copy(out, resp.Body)` into the file `name` from the response of `Get url`. -/
  | Copy (name url : GoString)
  /-- Go `log.Printf` with the formatted message. -/
  | Printf (msg : GoString)
  /-- Go `fmt.Fprintf(metaFile, ...)` with the formatted text. -/
  | Fprintf (name data : GoString)
  /-- Deferred `resp.Body.Close()` of the response of `Get url`. -/
  | CloseBody (url : GoString)
  /-- Deferred `Close()` of the file `name`. -/
  | CloseFile (name : GoString)
  deriving DecidableEq, Repr

/-- What the calls made by one `downloadFile` run return. -/
structure FileWorld where
  /-- Error of `os.Create(filepath)`, if any. -/
  create : Option GoError
  /-- Result of `http.Get(url)`. -/
  get : Except GoError Response
  /-- Result of `io.Copy(out, resp.Body)`: the number of bytes written, an `int64`. -/
  copy : Except GoError Int

/-- What the calls made by one `downloadDirectory` run return. -/
structure World where
  /-- Go `filepath.Join` of two elements. -/
  Join : GoString → GoString → GoString
  /-- Go `xml.Unmarshal` into a fresh `models.SVN`. -/
  Unmarshal : GoString → Except GoError models.SVN
  /-- Decimal text of an integer, the verb `%d`. -/
  Itoa : Int → GoString
  /-- Error of `os.MkdirAll(dirPath, 0755)`, if any. -/
  mkdirAll : Option GoError
  /-- Result of `http.Get(dir.URL)`. -/
  get : Except GoError Response
  /-- Result of `io.ReadAll(resp.Body)`. -/
  readAll : Except GoError GoString
  /-- Error of `os.WriteFile(.../index.html, ...)`, if any. -/
  writeFile : Option GoError
  /-- The calls of the `i`-th iteration of the download loop. -/
  file : Nat → FileWorld
  /-- Error of `os.Create(.../metadata.txt)`, if any. -/
  createMeta : Option GoError
  /-- Value of `time.Now().Format(time.RFC3339)`. -/
  now : GoString
  /-- Error of `fmt.Fprintf(metaFile, ...)`, if any. -/
  fprintf : Option GoError

/-- downloadFile downloads a file from a URL to a local path and returns the number of
bytes downloaded. The Go pair `(n, err)` is `.ok n` when `err == nil`; with an error the
source returns `0` for `n`. -/
def downloadFile (fw : FileWorld) (filepath url : GoString) : Except GoError Int × List Effect :=
  match fw.create with
  | some err => (.error err, [Effect.Create filepath])
  | none =>
    -- defer out.Close()
    match fw.get with
    | .error err => (.error err, [Effect.Create filepath, Effect.Get url, Effect.CloseFile filepath])
    | .ok resp =>
      -- defer resp.Body.Close()
      if resp.StatusCode ≠ StatusOK then
        (.error (lit "bad status: " ++ resp.Status),
          [Effect.Create filepath, Effect.Get url, Effect.CloseBody url, Effect.CloseFile filepath])
      else
        match fw.copy with
        | .error err =>
          (.error err,
            [Effect.Create filepath, Effect.Get url, Effect.Copy filepath url,
             Effect.CloseBody url, Effect.CloseFile filepath])
        | .ok bytesWritten =>
          (.ok bytesWritten,
            [Effect.Create filepath, Effect.Get url, Effect.Copy filepath url,
             Effect.CloseBody url, Effect.CloseFile filepath])

/-- The state carried through the loop `for _, file := range xmlFiles`. -/
structure LoopState where
  FileCount : Int
  totalBytes : Int
  trace : List Effect
  deriving DecidableEq, Repr

/-- The loop `for _, file := range xmlFiles` of `downloadDirectory`, from iteration `i` on. -/
def downloadLoop (w : World) (dir : models.Directory) (dirPath : GoString) :
    List models.File → Nat → LoopState → LoopState
  | [], _, st => st
  | file :: rest, i, st =>
    let fileURL := dir.URL ++ file.Href
    let filePath := w.Join dirPath file.Name
    match downloadFile (w.file i) filePath fileURL with
    | (.error err, tr) =>
      downloadLoop w dir dirPath rest (i + 1)
        { st with
          trace := st.trace ++ tr ++
            [Effect.Printf (lit "Error downloading " ++ file.Name ++ lit ": " ++ err)] }
    | (.ok bytes, tr) =>
      downloadLoop w dir dirPath rest (i + 1)
        { FileCount := st.FileCount + 1
          totalBytes := wrapInt64 (st.totalBytes + bytes)
          trace := st.trace ++ tr }

/-- The text written to `metadata.txt`. -/
def metadataText (w : World) (dir : models.Directory) (fileCount totalBytes : Int) : GoString :=
  lit "Code: " ++ dir.Code ++ lit "\nName: " ++ dir.Name ++ lit "\nURL: " ++ dir.URL ++
  lit "\nDownloaded: " ++ w.now ++ lit "\nFiles: " ++ w.Itoa fileCount ++
  lit "\nTotal Size: " ++ w.Itoa totalBytes ++ lit " bytes\n"

/-- downloadDirectory downloads all XML files from a language directory. -/
def downloadDirectory (dm : DownloadManager) (w : World) (dir : models.Directory) :
    models.DownloadResult × List Effect :=
  let result : models.DownloadResult :=
    { Directory := dir, Success := false, FileCount := 0, Error := none, TotalBytes := 0 }
  -- Create directory-specific output folder
  let dirPath := w.Join dm.OutputDir dir.Code
  match w.mkdirAll with
  | some err =>
    ({ result with Error := some (lit "failed to create directory " ++ dirPath ++ lit ": " ++ err) },
      [Effect.MkdirAll dirPath])
  | none =>
    -- Fetch the directory page
    match w.get with
    | .error err =>
      ({ result with Error := some (lit "failed to fetch directory: " ++ err) },
        [Effect.MkdirAll dirPath, Effect.Get dir.URL])
    | .ok _resp =>
      -- defer resp.Body.Close()
      let pre := [Effect.MkdirAll dirPath, Effect.Get dir.URL, Effect.ReadAll dir.URL]
      -- Read the directory index content
      match w.readAll with
      | .error err =>
        ({ result with Error := some (lit "failed to read directory page: " ++ err) },
          pre ++ [Effect.CloseBody dir.URL])
      | .ok indexContent =>
        -- Save the directory index
        let indexPath := w.Join dirPath (lit "index.html")
        let pre := pre ++ [Effect.WriteFile indexPath indexContent]
        match w.writeFile with
        | some err =>
          ({ result with Error := some (lit "failed to save index file: " ++ err) },
            pre ++ [Effect.CloseBody dir.URL])
        | none =>
          -- Parse the directory contents to find XML files
          let pre := pre ++ [Effect.Unmarshal (parser.RemoveDOCTYPE indexContent)]
          match parser.ParseDirectoryContents w.Unmarshal indexContent with
          | .error err =>
            ({ result with Error := some (lit "failed to parse directory contents: " ++ err) },
              pre ++ [Effect.CloseBody dir.URL])
          | .ok xmlFiles =>
            -- Download each XML file
            let st := downloadLoop w dir dirPath xmlFiles 0
              { FileCount := result.FileCount, totalBytes := 0, trace := pre }
            let result := { result with FileCount := st.FileCount }
            -- Create metadata file
            let metaPath := w.Join dirPath (lit "metadata.txt")
            let pre := st.trace ++ [Effect.Create metaPath]
            match w.createMeta with
            | some err =>
              ({ result with Error := some (lit "failed to create metadata file: " ++ err) },
                pre ++ [Effect.CloseBody dir.URL])
            | none =>
              -- defer metaFile.Close()
              -- Write metadata
              let pre := pre ++
                [Effect.Fprintf metaPath (metadataText w dir result.FileCount st.totalBytes)]
              match w.fprintf with
              | some err =>
                ({ result with Error := some (lit "failed to write metadata: " ++ err) },
                  pre ++ [Effect.CloseFile metaPath, Effect.CloseBody dir.URL])
              | none =>
                ({ result with Success := true, TotalBytes := st.totalBytes },
                  pre ++ [Effect.CloseFile metaPath, Effect.CloseBody dir.URL])

/-- What the `downloadFile` calls of the download loop return, in order, when the loop runs
over `files` starting at iteration `i`. -/
def transferResults (w : World) (dir : models.Directory) (dirPath : GoString) :
    List models.File → Nat → List (Except GoError Int)
  | [], _ => []
  | file :: rest, i =>
    (downloadFile (w.file i) (w.Join dirPath file.Name) (dir.URL ++ file.Href)).1 ::
      transferResults w dir dirPath rest (i + 1)

/-- The byte counts returned by the transfers that succeeded. -/
def okBytes (results : List (Except GoError Int)) : List Int :=
  results.filterMap (fun r => match r with
    | .ok n => some n
    | .error _ => none)

/-! ### `StartDownloads`: the goroutines as a transition system

`sync.WaitGroup` follows the standard library: its state is a counter and a number of
registered waiters, changed atomically, and a semaphore on which the waiters park.
`Add(delta)` changes the counter, panics on a negative counter or on a positive `delta`
that raises the counter from zero while a waiter is registered, and, when it brings the
counter to zero with waiters registered, verifies that the state is unchanged, resets it
and releases the waiters. `Wait()` returns at once when the counter is zero; otherwise it
registers as a waiter and parks, and once released it panics unless the state is zero. -/

/-- Who receives from the channel `Results`. -/
inductive Receiver where
  /-- As in `downloadWithProgressReporting`: the goroutine that called `StartDownloads`
  ranges over `Results` once the call has returned. -/
  | afterReturn
  /-- Another goroutine ranges over `Results` from the start. -/
  | concurrent
  deriving DecidableEq, Repr

/-- The inputs of one `StartDownloads` call and what its surroundings answer. -/
structure Config where
  /-- The receiver of the call. -/
  dm : DownloadManager
  /-- The argument `directories`. -/
  directories : List models.Directory
  /-- Error of `os.MkdirAll(dm.OutputDir, 0755)`, if any. -/
  mkdirAll : Option GoError
  /-- What the calls of the `i`-th started `downloadDirectory` run return. -/
  world : Nat → World
  /-- Who receives from `dm.Results`. -/
  receiver : Receiver

/-- A run-time panic that ends the process. -/
inductive Panic where
  /-- Go: `close of closed channel`. -/
  | closeOfClosedChannel
  /-- Go: `send on closed channel`. -/
  | sendOnClosedChannel
  /-- Go: `sync: negative WaitGroup counter`. -/
  | negativeWaitGroupCounter
  /-- Go: `sync: WaitGroup misuse: Add called concurrently with Wait`. -/
  | addDuringWait
  /-- Go: `sync: WaitGroup is reused before previous Wait has returned`. -/
  | waitGroupReused
  deriving DecidableEq, Repr

/-- Where the goroutine that called `StartDownloads` stands. -/
inductive MainPC where
  /-- Before `os.MkdirAll(dm.OutputDir, 0755)`. -/
  | mkdir
  /-- In the branch `err != nil`, before `close(dm.Results)`. -/
  | closeResults
  /-- Before the `go` statement of the closing goroutine. -/
  | goCloser
  /-- At the head of `for _, dir := range directories`, `rest` still to come. -/
  | loop (rest : List models.Directory)
  /-- After `wg.Add(1)`, before `sem <- struct{}{}`. -/
  | acquire (dir : models.Directory) (rest : List models.Directory)
  /-- Before `go func(dir models.Directory) {...}(dir)`. -/
  | spawn (dir : models.Directory) (rest : List models.Directory)
  /-- `StartDownloads` has returned. -/
  | returned
  deriving DecidableEq, Repr

/-- Where the goroutine `wg.Wait(); close(dm.Results)` stands. -/
inductive CloserPC where
  | notStarted
  /-- Before `wg.Wait()` reads the state of `wg`. -/
  | wait
  /-- In `wg.Wait()`, registered as a waiter and parked on the semaphore of `wg`. -/
  | parked
  /-- Before `close(dm.Results)`. -/
  | close
  | done
  deriving DecidableEq, Repr

/-- Where a download goroutine stands. -/
inductive WorkerPC where
  /-- Before `result := dm.downloadDirectory(dir)`. -/
  | call
  /-- In `dm.Results <- result`. -/
  | send (result : models.DownloadResult)
  /-- Before the deferred `<-sem`; `panicking` when the send panicked. -/
  | release (panicking : Bool)
  /-- Before the deferred `wg.Done()`. -/
  | done (panicking : Bool)
  /-- In `wg.Done()`, which has brought the counter to zero with `waiters` registered,
  before it verifies the state and releases them. -/
  | notify (panicking : Bool) (waiters : Nat)
  | exited
  deriving DecidableEq, Repr

/-- A download goroutine. -/
structure Worker where
  dir : models.Directory
  pc : WorkerPC
  deriving DecidableEq, Repr

/-- The shared variables and the goroutines of one `StartDownloads` call. -/
structure State where
  main : MainPC
  closer : CloserPC
  /-- The download goroutines in the order they were started. -/
  workers : List Worker
  /-- The number of elements in the buffer of `sem`, `len(sem)`. -/
  sem : Nat
  /-- The counter of `wg`. -/
  wg : Int
  /-- The number of waiters registered in `wg`. -/
  waiters : Nat
  /-- The number of releases the semaphore of `wg` holds. -/
  sema : Nat
  /-- Whether `dm.Results` is closed. -/
  closed : Bool
  /-- The values received from `dm.Results`, in order. -/
  received : List models.DownloadResult
  /-- Whether the receiver left its `range` loop. -/
  drained : Bool
  /-- The panic that ended the process, if any. -/
  panic : Option Panic
  deriving DecidableEq, Repr

/-- The state when `StartDownloads` is called: `wg` and `sem` are fresh. -/
def State.init : State :=
  { main := .mkdir, closer := .notStarted, workers := [], sem := 0, wg := 0, waiters := 0,
    sema := 0, closed := false, received := [], drained := false, panic := none }

/-- A choice of the scheduler. -/
inductive Event where
  /-- The goroutine that called `StartDownloads` executes its next statement. -/
  | main
  /-- The closing goroutine executes its next statement. -/
  | closer
  /-- The `i`-th download goroutine executes its next statement. -/
  | worker (i : Nat)
  /-- The send of the `i`-th download goroutine meets a receive on `Results`. -/
  | deliver (i : Nat)
  /-- The receiver finds `Results` closed and leaves its loop. -/
  | recvClosed
  deriving DecidableEq, Repr

/-- Whether a goroutine is blocked in a receive on `Results`. -/
def receiverReady (cfg : Config) (s : State) : Bool :=
  !s.drained && (cfg.receiver == .concurrent || s.main == .returned)

/-- The next statement of the goroutine that called `StartDownloads`.
`sem` has capacity `dm.Concurrency`: a send blocks while the buffer is full.
`wg.Add(1)` raises the counter and then looks at the new state. -/
def stepMain (cfg : Config) (s : State) : Option State :=
  match s.main with
  | .mkdir =>
    match cfg.mkdirAll with
    | some _ => some { s with main := .closeResults }
    | none => some { s with main := .goCloser }
  | .closeResults =>
    if s.closed then some { s with panic := some .closeOfClosedChannel }
    else some { s with closed := true, main := .returned }
  | .goCloser => some { s with closer := .wait, main := .loop cfg.directories }
  | .loop [] => some { s with main := .returned }
  | .loop (dir :: rest) =>
    if s.wg + 1 < 0 then
      some { s with wg := s.wg + 1, panic := some .negativeWaitGroupCounter }
    else if s.waiters ≠ 0 ∧ s.wg + 1 = 1 then
      some { s with wg := s.wg + 1, panic := some .addDuringWait }
    else if 0 < s.wg + 1 ∨ s.waiters = 0 then
      some { s with wg := s.wg + 1, main := .acquire dir rest }
    else
      some { s with
        wg := s.wg + 1, waiters := 0, sema := s.sema + s.waiters, main := .acquire dir rest }
  | .acquire dir rest =>
    if s.sem < cfg.dm.Concurrency then some { s with sem := s.sem + 1, main := .spawn dir rest }
    else none
  | .spawn dir rest =>
    some { s with workers := s.workers ++ [{ dir := dir, pc := .call }], main := .loop rest }
  | .returned => none

/-- The next statement of the closing goroutine. `wg.Wait()` returns at once when it reads
a zero counter and registers as a waiter otherwise; a parked waiter goes on when the
semaphore has been released, and then panics unless the state of `wg` is zero. -/
def stepCloser (s : State) : Option State :=
  match s.closer with
  | .notStarted => none
  | .wait =>
    if s.wg = 0 then some { s with closer := .close }
    else some { s with waiters := s.waiters + 1, closer := .parked }
  | .parked =>
    if 0 < s.sema then
      if s.wg ≠ 0 ∨ s.waiters ≠ 0 then
        some { s with sema := s.sema - 1, panic := some .waitGroupReused }
      else some { s with sema := s.sema - 1, closer := .close }
    else none
  | .close =>
    if s.closed then some { s with panic := some .closeOfClosedChannel }
    else some { s with closed := true, closer := .done }
  | .done => none

/-- The next statement of the `i`-th download goroutine, the send on `Results` apart:
a send on a closed channel panics, and the deferred calls run while panicking.
`wg.Done()` is `wg.Add(-1)`: it lowers the counter and then looks at the new state. -/
def stepWorker (cfg : Config) (s : State) (i : Nat) : Option State :=
  match s.workers[i]? with
  | none => none
  | some w =>
    match w.pc with
    | .call =>
      some { s with
        workers := s.workers.set i { w with pc := .send (downloadDirectory cfg.dm (cfg.world i) w.dir).1 } }
    | .send _ =>
      if s.closed then some { s with workers := s.workers.set i { w with pc := .release true } }
      else none
    | .release p =>
      if 0 < s.sem then
        some { s with sem := s.sem - 1, workers := s.workers.set i { w with pc := .done p } }
      else none
    | .done p =>
      if s.wg - 1 < 0 then
        some { s with
          wg := s.wg - 1
          workers := s.workers.set i { w with pc := .exited }
          panic := some .negativeWaitGroupCounter }
      else if 0 < s.wg - 1 ∨ s.waiters = 0 then
        some { s with
          wg := s.wg - 1
          workers := s.workers.set i { w with pc := .exited }
          panic := if p then some .sendOnClosedChannel else none }
      else
        some { s with
          wg := s.wg - 1
          workers := s.workers.set i { w with pc := .notify p s.waiters } }
    | .notify p n =>
      if s.wg ≠ 0 ∨ s.waiters ≠ n then some { s with panic := some .addDuringWait }
      else
        some { s with
          waiters := 0
          sema := s.sema + n
          workers := s.workers.set i { w with pc := .exited }
          panic := if p then some .sendOnClosedChannel else none }
    | .exited => none

/-- The send `dm.Results <- result` of the `i`-th download goroutine completes:
`Results` is unbuffered, so a receiver has to be waiting. -/
def stepDeliver (cfg : Config) (s : State) (i : Nat) : Option State :=
  match s.workers[i]? with
  | none => none
  | some w =>
    match w.pc with
    | .send result =>
      if !s.closed && receiverReady cfg s then
        some { s with
          received := s.received ++ [result]
          workers := s.workers.set i { w with pc := .release false } }
      else none
    | _ => none

/-- The receiver's `range` loop ends when `Results` is closed. -/
def stepRecvClosed (cfg : Config) (s : State) : Option State :=
  if s.closed && receiverReady cfg s then some { s with drained := true } else none

/-- One step of the system; `none` when the chosen goroutine is blocked or has finished,
or when the process has ended in a panic. -/
def step (cfg : Config) (s : State) (e : Event) : Option State :=
  if s.panic.isSome then none
  else
    match e with
    | .main => stepMain cfg s
    | .closer => stepCloser s
    | .worker i => stepWorker cfg s i
    | .deliver i => stepDeliver cfg s i
    | .recvClosed => stepRecvClosed cfg s

/-- The state after the steps of `sched`, taken from `s`. -/
def execFrom (cfg : Config) (s : State) : List Event → Option State
  | [] => some s
  | e :: es =>
    match step cfg s e with
    | none => none
    | some t => execFrom cfg t es

/-- StartDownloads begins downloading the selected directories concurrently: the state
reached when the goroutines take their steps in the order `sched`. -/
def StartDownloads (cfg : Config) (sched : List Event) : Option State :=
  execFrom cfg State.init sched

/-- Whether a download goroutine holds a permit of `sem`. -/
def WorkerPC.holdsPermit : WorkerPC → Bool
  | .call => true
  | .send _ => true
  | .release _ => true
  | .done _ => false
  | .notify _ _ => false
  | .exited => false

/-- The number of download goroutines that hold a permit. -/
def State.holders (s : State) : Nat :=
  s.workers.countP (fun w => w.pc.holdsPermit)

/-- The permit that was acquired for a run that has not been started yet. -/
def State.pendingPermit (s : State) : Nat :=
  match s.main with
  | .spawn _ _ => 1
  | _ => 0

/-- No step is possible. -/
def State.stuck (cfg : Config) (s : State) : Prop :=
  ∀ e : Event, step cfg s e = none

/-- Whether a download goroutine has left its send statement. -/
def WorkerPC.sent : WorkerPC → Bool
  | .call => false
  | .send _ => false
  | .release _ => true
  | .done _ => true
  | .notify _ _ => true
  | .exited => true

/-- Whether a download goroutine has not yet lowered the counter of `wg`. -/
def WorkerPC.live : WorkerPC → Bool
  | .call => true
  | .send _ => true
  | .release _ => true
  | .done _ => true
  | .notify _ _ => false
  | .exited => false

/-- Whether a download goroutine is about to release the waiters of `wg`. -/
def WorkerPC.notifying : WorkerPC → Bool
  | .notify _ _ => true
  | _ => false

/-- Whether a download goroutine is about to release a number of waiters other than one. -/
def WorkerPC.miscounted : WorkerPC → Bool
  | .notify _ n => decide (n ≠ 1)
  | _ => false

/-- Whether a download goroutine has not ended. -/
def WorkerPC.running : WorkerPC → Bool
  | .exited => false
  | _ => true

/-- The `wg.Add(1)` made for a run that has not been started yet. -/
def State.pendingAdd (s : State) : Nat :=
  match s.main with
  | .acquire _ _ => 1
  | .spawn _ _ => 1
  | _ => 0

/-- Whether, at every step of `sched` taken from `s`, the `wg.Wait()` of the closing
goroutine reads a zero counter only after `StartDownloads` has returned. -/
def waitsForReturn (cfg : Config) (s : State) : List Event → Bool
  | [] => true
  | e :: es =>
    (!(e == .closer && s.closer == .wait && s.wg == 0) || s.main == .returned) &&
      match step cfg s e with
      | none => true
      | some t => waitsForReturn cfg t es

/-- The number of statements the calling goroutine has left, counting five for each run
it still has to start. -/
def MainPC.rank : MainPC → Nat
  | .mkdir => 0
  | .closeResults => 1
  | .goCloser => 0
  | .loop rest => 8 * rest.length + 1
  | .acquire _ rest => 8 * rest.length + 8
  | .spawn _ rest => 8 * rest.length + 7
  | .returned => 0

/-- The number of statements the closing goroutine has left once it is started. -/
def CloserPC.rank : CloserPC → Nat
  | .notStarted => 0
  | .wait => 3
  | .parked => 2
  | .close => 1
  | .done => 0

/-- The number of statements a download goroutine has left. -/
def WorkerPC.rank : WorkerPC → Nat
  | .call => 5
  | .send _ => 4
  | .release _ => 3
  | .done _ => 2
  | .notify _ _ => 1
  | .exited => 0

/-- An upper bound of the number of steps the system can still take from `s`. -/
def State.rank (cfg : Config) (s : State) : Nat :=
  (match s.main with
    | .mkdir => 8 * cfg.directories.length + 6
    | .goCloser => 8 * cfg.directories.length + 5
    | pc => pc.rank) +
  s.closer.rank + (s.workers.map (fun w => w.pc.rank)).sum +
  (if s.drained then 0 else 1) + (if s.panic.isSome then 0 else 1)

/-- The steps of `step`, one constructor per statement and outcome. -/
inductive Step (cfg : Config) : State → Event → State → Prop where
  | mkdirFail (s : State) (err : GoError) (hp : s.panic = none) (hm : s.main = .mkdir)
      (he : cfg.mkdirAll = some err) :
      Step cfg s .main { s with main := .closeResults }
  | mkdirOk (s : State) (hp : s.panic = none) (hm : s.main = .mkdir)
      (he : cfg.mkdirAll = none) :
      Step cfg s .main { s with main := .goCloser }
  | closeResultsPanic (s : State) (hp : s.panic = none) (hm : s.main = .closeResults)
      (hc : s.closed = true) :
      Step cfg s .main { s with panic := some .closeOfClosedChannel }
  | closeResults (s : State) (hp : s.panic = none) (hm : s.main = .closeResults)
      (hc : s.closed = false) :
      Step cfg s .main { s with closed := true, main := .returned }
  | goCloser (s : State) (hp : s.panic = none) (hm : s.main = .goCloser) :
      Step cfg s .main { s with closer := .wait, main := .loop cfg.directories }
  | loopEnd (s : State) (hp : s.panic = none) (hm : s.main = .loop []) :
      Step cfg s .main { s with main := .returned }
  | addNegative (s : State) (dir : models.Directory) (rest : List models.Directory)
      (hp : s.panic = none) (hm : s.main = .loop (dir :: rest)) (hv : s.wg + 1 < 0) :
      Step cfg s .main { s with wg := s.wg + 1, panic := some .negativeWaitGroupCounter }
  | addMisuse (s : State) (dir : models.Directory) (rest : List models.Directory)
      (hp : s.panic = none) (hm : s.main = .loop (dir :: rest)) (hv : ¬ s.wg + 1 < 0)
      (hw : s.waiters ≠ 0 ∧ s.wg + 1 = 1) :
      Step cfg s .main { s with wg := s.wg + 1, panic := some .addDuringWait }
  | loopAdd (s : State) (dir : models.Directory) (rest : List models.Directory)
      (hp : s.panic = none) (hm : s.main = .loop (dir :: rest)) (hv : ¬ s.wg + 1 < 0)
      (hw : ¬ (s.waiters ≠ 0 ∧ s.wg + 1 = 1)) (hr : 0 < s.wg + 1 ∨ s.waiters = 0) :
      Step cfg s .main { s with wg := s.wg + 1, main := .acquire dir rest }
  | addRelease (s : State) (dir : models.Directory) (rest : List models.Directory)
      (hp : s.panic = none) (hm : s.main = .loop (dir :: rest)) (hv : ¬ s.wg + 1 < 0)
      (hw : ¬ (s.waiters ≠ 0 ∧ s.wg + 1 = 1)) (hr : ¬ (0 < s.wg + 1 ∨ s.waiters = 0)) :
      Step cfg s .main
        { s with
          wg := s.wg + 1, waiters := 0, sema := s.sema + s.waiters, main := .acquire dir rest }
  | acquire (s : State) (dir : models.Directory) (rest : List models.Directory)
      (hp : s.panic = none) (hm : s.main = .acquire dir rest)
      (hs : s.sem < cfg.dm.Concurrency) :
      Step cfg s .main { s with sem := s.sem + 1, main := .spawn dir rest }
  | spawn (s : State) (dir : models.Directory) (rest : List models.Directory)
      (hp : s.panic = none) (hm : s.main = .spawn dir rest) :
      Step cfg s .main
        { s with workers := s.workers ++ [{ dir := dir, pc := .call }], main := .loop rest }
  | wait (s : State) (hp : s.panic = none) (hc : s.closer = .wait) (hw : s.wg = 0) :
      Step cfg s .closer { s with closer := .close }
  | park (s : State) (hp : s.panic = none) (hc : s.closer = .wait) (hw : ¬ s.wg = 0) :
      Step cfg s .closer { s with waiters := s.waiters + 1, closer := .parked }
  | wakePanic (s : State) (hp : s.panic = none) (hc : s.closer = .parked)
      (hs : 0 < s.sema) (hw : s.wg ≠ 0 ∨ s.waiters ≠ 0) :
      Step cfg s .closer { s with sema := s.sema - 1, panic := some .waitGroupReused }
  | wake (s : State) (hp : s.panic = none) (hc : s.closer = .parked)
      (hs : 0 < s.sema) (hw : ¬ (s.wg ≠ 0 ∨ s.waiters ≠ 0)) :
      Step cfg s .closer { s with sema := s.sema - 1, closer := .close }
  | closePanic (s : State) (hp : s.panic = none) (hc : s.closer = .close)
      (hcl : s.closed = true) :
      Step cfg s .closer { s with panic := some .closeOfClosedChannel }
  | close (s : State) (hp : s.panic = none) (hc : s.closer = .close)
      (hcl : s.closed = false) :
      Step cfg s .closer { s with closed := true, closer := .done }
  | call (s : State) (i : Nat) (w : Worker) (hp : s.panic = none)
      (hw : s.workers[i]? = some w) (hpc : w.pc = .call) :
      Step cfg s (.worker i)
        { s with
          workers := s.workers.set i
            { w with pc := .send (downloadDirectory cfg.dm (cfg.world i) w.dir).1 } }
  | sendPanic (s : State) (i : Nat) (w : Worker) (r : models.DownloadResult)
      (hp : s.panic = none) (hw : s.workers[i]? = some w) (hpc : w.pc = .send r)
      (hcl : s.closed = true) :
      Step cfg s (.worker i) { s with workers := s.workers.set i { w with pc := .release true } }
  | release (s : State) (i : Nat) (w : Worker) (p : Bool) (hp : s.panic = none)
      (hw : s.workers[i]? = some w) (hpc : w.pc = .release p) (hs : 0 < s.sem) :
      Step cfg s (.worker i)
        { s with sem := s.sem - 1, workers := s.workers.set i { w with pc := .done p } }
  | doneNegative (s : State) (i : Nat) (w : Worker) (p : Bool) (hp : s.panic = none)
      (hw : s.workers[i]? = some w) (hpc : w.pc = .done p) (hv : s.wg - 1 < 0) :
      Step cfg s (.worker i)
        { s with
          wg := s.wg - 1
          workers := s.workers.set i { w with pc := .exited }
          panic := some .negativeWaitGroupCounter }
  | done (s : State) (i : Nat) (w : Worker) (p : Bool) (hp : s.panic = none)
      (hw : s.workers[i]? = some w) (hpc : w.pc = .done p) (hv : ¬ s.wg - 1 < 0)
      (hr : 0 < s.wg - 1 ∨ s.waiters = 0) :
      Step cfg s (.worker i)
        { s with
          wg := s.wg - 1
          workers := s.workers.set i { w with pc := .exited }
          panic := if p then some .sendOnClosedChannel else none }
  | doneZero (s : State) (i : Nat) (w : Worker) (p : Bool) (hp : s.panic = none)
      (hw : s.workers[i]? = some w) (hpc : w.pc = .done p) (hv : ¬ s.wg - 1 < 0)
      (hr : ¬ (0 < s.wg - 1 ∨ s.waiters = 0)) :
      Step cfg s (.worker i)
        { s with
          wg := s.wg - 1
          workers := s.workers.set i { w with pc := .notify p s.waiters } }
  | notifyPanic (s : State) (i : Nat) (w : Worker) (p : Bool) (n : Nat)
      (hp : s.panic = none) (hw : s.workers[i]? = some w) (hpc : w.pc = .notify p n)
      (hc : s.wg ≠ 0 ∨ s.waiters ≠ n) :
      Step cfg s (.worker i) { s with panic := some .addDuringWait }
  | notify (s : State) (i : Nat) (w : Worker) (p : Bool) (n : Nat)
      (hp : s.panic = none) (hw : s.workers[i]? = some w) (hpc : w.pc = .notify p n)
      (hc : ¬ (s.wg ≠ 0 ∨ s.waiters ≠ n)) :
      Step cfg s (.worker i)
        { s with
          waiters := 0
          sema := s.sema + n
          workers := s.workers.set i { w with pc := .exited }
          panic := if p then some .sendOnClosedChannel else none }
  | deliver (s : State) (i : Nat) (w : Worker) (r : models.DownloadResult)
      (hp : s.panic = none) (hw : s.workers[i]? = some w) (hpc : w.pc = .send r)
      (hcl : s.closed = false) (hr : receiverReady cfg s = true) :
      Step cfg s (.deliver i)
        { s with
          received := s.received ++ [r]
          workers := s.workers.set i { w with pc := .release false } }
  | recvClosed (s : State) (hp : s.panic = none) (hcl : s.closed = true)
      (hr : receiverReady cfg s = true) :
      Step cfg s .recvClosed { s with drained := true }

/-! ### Invariants of the transition system -/

/-- The permits in the buffer of `sem` are those of the runs that hold one and the one
acquired for the run about to start, and there are at most `Concurrency` of them. -/
def PermitInv (cfg : Config) (s : State) : Prop :=
  s.sem = s.holders + s.pendingPermit ∧ s.sem ≤ cfg.dm.Concurrency

/-- The state after a failed `os.MkdirAll`. -/
def failed1 : State := { State.init with main := .closeResults }

/-- The state after `close(dm.Results); return`. -/
def failed2 : State := { State.init with closed := true, main := .returned }

/-- The state after the receiver has found `Results` closed. -/
def failed3 : State := { State.init with closed := true, main := .returned, drained := true }

/-- The directories the calling goroutine has still to start. -/
def MainPC.todo (directories : List models.Directory) : MainPC → List models.Directory
  | .mkdir => directories
  | .closeResults => directories
  | .goCloser => directories
  | .loop rest => rest
  | .acquire dir rest => dir :: rest
  | .spawn dir rest => dir :: rest
  | .returned => []

/-- Whether a download goroutine runs its deferred calls because its send panicked. -/
def WorkerPC.panicking : WorkerPC → Bool
  | .release p => p
  | .done p => p
  | .notify p _ => p
  | _ => false

/-- Whether a download goroutine is about to send an outcome of another directory. -/
def Worker.mislabelled (w : Worker) : Bool :=
  match w.pc with
  | .send r => decide (r.Directory ≠ w.dir)
  | _ => false

/-- What holds in every state when the output directory could be created: the started
runs and the directories still to start make up the argument, the counter of `wg` counts
the runs that have not lowered it and the pending `wg.Add(1)`, and the closing goroutine
exists once the `go` statement has been executed. -/
structure Sched (cfg : Config) (s : State) : Prop where
  noFail : s.main ≠ .closeResults
  started : s.workers.map (fun w => w.dir) ++ s.main.todo cfg.directories = cfg.directories
  counter : s.panic = none →
    s.wg = ((s.workers.countP (fun w => w.pc.live) + s.pendingAdd : Nat) : Int)
  closerStarted : s.closer = .notStarted ↔ (s.main = .mkdir ∨ s.main = .goCloser)

/-- What holds in every state of a run in which the output directory could be created,
the receiver is the caller of `StartDownloads`, and the closing goroutine reads a zero
counter in `wg.Wait()` only after `StartDownloads` has returned. -/
structure Live (cfg : Config) (s : State) : Prop where
  sched : Sched cfg s
  permit : PermitInv cfg s
  noPanic : s.panic = none
  calm : s.workers.countP (fun w => w.pc.panicking) = 0
  early : s.main ≠ .returned → s.workers.countP (fun w => w.pc.sent) = 0
  token : (s.closer = .parked → s.waiters + s.sema = 1) ∧
    (s.closer ≠ .parked → s.waiters = 0 ∧ s.sema = 0)
  notifying : s.workers.countP (fun w => w.pc.notifying) ≤ s.waiters
  counted : s.workers.countP (fun w => w.pc.miscounted) = 0
  quiet : (0 < s.workers.countP (fun w => w.pc.notifying) ∨ 0 < s.sema) →
    s.wg = 0 ∧ s.main = .returned
  pendingWake : s.waiters ≠ 0 →
    s.wg ≠ 0 ∨ 0 < s.workers.countP (fun w => w.pc.notifying)
  closing : (s.closer = .close ∨ s.closer = .done) →
    s.main = .returned ∧ s.workers.countP (fun w => w.pc.running) = 0
  closedIff : s.closed = true ↔ s.closer = .done
  drained : s.drained = true → s.closed = true
  labelled : s.workers.countP (fun w => w.mislabelled) = 0
  outcomes : (s.received.map (fun r => r.Directory)).Perm
    ((s.workers.filter (fun w => w.pc.sent)).map (fun w => w.dir))

/-- What holds in every state when the receiver is the caller of `StartDownloads` and
there are more directories than permits: nothing has been received, and as long as
`Results` is open the call has not returned and no run has left its send. -/
structure Dead (cfg : Config) (s : State) : Prop where
  sched : Sched cfg s
  permit : PermitInv cfg s
  nothing : s.received = []
  blocked : s.closed = false →
    s.main ≠ .returned ∧ s.workers.countP (fun w => w.pc.sent) = 0

end fetcher

/-! ### Concrete inputs -/

namespace examples

open models fetcher

/-- A `file` entry whose name is its href. -/
def fileEntry (name : String) : File :=
  { XMLName := { Space := [], Local := lit "file" }, Name := lit name, Href := lit name }

/-- A `dir` entry. -/
def dirEntry (name : String) : Dir :=
  { XMLName := { Space := [], Local := lit "dir" }, Name := lit name, Href := lit name ++ lit "/" }

/-- A decoded document with the given entries. -/
def document (files : List File) (dirs : List Dir) : SVN :=
  { XMLName := { Space := [], Local := lit "svn" }
    Version := lit "1.6.11"
    Href := lit "http://subversion.tigris.org/"
    Index :=
      { XMLName := { Space := [], Local := lit "index" }
        Rev := lit "7", Path := lit "/", Base := lit "lexin"
        Updir := none, Files := files, Dirs := dirs } }

/-- The listing of the scenario: `a.xml`, `b.xml` and `c.txt`. -/
def listing : SVN := document [fileEntry "a.xml", fileEntry "b.xml", fileEntry "c.txt"] []

/-- A catalog with a name of the table and one outside it. -/
def catalog : SVN := document [] [dirEntry "grekiska", dirEntry "klingon"]

/-- The text of the scenario's listing page. -/
def listingPage : GoString := lit "<!DOCTYPE svn [x]><svn><index/></svn>"

/-- A decoder that knows the scenario's listing page once its declaration is removed. -/
def decode (svn : SVN) (data : GoString) : Except GoError SVN :=
  if data = lit "<svn><index/></svn>" then .ok svn
  else .error (lit "expected element type <svn> but have <html>")

/-- A response with status 200. -/
def ok200 : Response := { StatusCode := 200, Status := lit "200 OK" }

/-- A response with status 404. -/
def notFound : Response := { StatusCode := 404, Status := lit "404 Not Found" }

/-- A transfer that succeeds with `n` bytes. -/
def transferOk (n : Int) : FileWorld := { create := none, get := .ok ok200, copy := .ok n }

/-- A transfer that meets status 404. -/
def transferNotFound : FileWorld := { create := none, get := .ok notFound, copy := .ok 0 }

/-- The collection of the scenario. -/
def svenska : Directory :=
  { Code := lit "svenska", Name := lit "Swedish", URL := lit "http://lexin/svenska/"
    Description := lit "Swedish-Swedish lexicon", Selected := true }

/-- A second collection. -/
def finska : Directory :=
  { Code := lit "finska", Name := lit "Finnish", URL := lit "http://lexin/finska/"
    Description := lit "Swedish-Finnish lexicon", Selected := true }

/-- The scenario: every call succeeds, `a.xml` has 5 bytes and `b.xml` has 7. -/
def world : World :=
  { Join := fun a b => a ++ lit "/" ++ b
    Unmarshal := decode listing
    Itoa := fun n => lit (toString n)
    mkdirAll := none
    get := .ok ok200
    readAll := .ok listingPage
    writeFile := none
    file := fun i => if i = 0 then transferOk 5 else transferOk 7
    createMeta := none
    now := lit "2024-05-01T10:00:00Z"
    fprintf := none }

/-- A manager with one permit. -/
def manager : DownloadManager := { Concurrency := 1, OutputDir := lit "lexin_downloads" }

/-- A catalog fetch that succeeds; `Title` capitalises nothing. -/
def catalogWorld : parser.CatalogWorld :=
  { get := .ok ok200
    readAll := .ok listingPage
    Unmarshal := decode catalog
    Title := fun s => lit "Title:" ++ s }

end examples

namespace examples

open models fetcher

/-- A `StartDownloads` call on `directories` with `k` permits in the scenario's world. -/
def config (k : Nat) (directories : List Directory) (mkdirAll : Option GoError)
    (receiver : Receiver) : Config :=
  { dm := { Concurrency := k, OutputDir := lit "lexin_downloads" }
    directories := directories
    mkdirAll := mkdirAll
    world := fun _ => world
    receiver := receiver }

/-- One collection, and the output root cannot be created. -/
def rootFails : Config := config 3 [svenska] (some (lit "permission denied")) .afterReturn

/-- Two collections and one permit, drained as `downloadWithProgressReporting` does. -/
def twoOnOnePermit : Config := config 1 [svenska, finska] none .afterReturn

/-- One collection and one permit, drained as `downloadWithProgressReporting` does. -/
def oneOnOnePermit : Config := config 1 [svenska] none .afterReturn

/-- Two collections and two permits, drained as `downloadWithProgressReporting` does. -/
def twoOnTwoPermits : Config := config 2 [svenska, finska] none .afterReturn

/-- The outcome of a run in the scenario's world. -/
def outcome (dir : Directory) : DownloadResult :=
  (downloadDirectory { Concurrency := 1, OutputDir := lit "lexin_downloads" } world dir).1

/-- The calling goroutine starts the first run and asks for a second permit; the first run
reaches its send; the closing goroutine enters `wg.Wait()`. -/
def blockingSchedule : List Event :=
  [.main, .main, .main, .main, .main, .main, .worker 0, .closer]

/-- The state after `blockingSchedule`: the caller waits for a permit, the only run waits
for a receiver, the closing goroutine is parked in `wg.Wait()`. -/
def deadlocked : State :=
  { main := .acquire finska []
    closer := .parked
    workers := [{ dir := svenska, pc := .send (outcome svenska) }]
    sem := 1
    wg := 2
    waiters := 1
    sema := 0
    closed := false
    received := []
    drained := false
    panic := none }

/-- The closing goroutine runs as soon as it is started, before the first `wg.Add(1)`. -/
def earlyCloseSchedule : List Event :=
  [.main, .main, .closer, .closer, .main, .main, .main, .main, .recvClosed,
   .worker 0, .worker 0, .worker 0, .worker 0]

/-- The state after `earlyCloseSchedule`: the run found `Results` closed and panicked. -/
def crashed : State :=
  { main := .returned
    closer := .done
    workers := [{ dir := svenska, pc := .exited }]
    sem := 0
    wg := 0
    waiters := 0
    sema := 0
    closed := true
    received := []
    drained := true
    panic := some .sendOnClosedChannel }

/-- Both runs are started and `StartDownloads` returns; the closing goroutine parks in
`wg.Wait()`; the second run is received first, then the first one; the `wg.Done()` of the
second run brings the counter to zero and releases the closing goroutine. -/
def fullSchedule : List Event :=
  [.main, .main, .main, .main, .main, .main, .main, .main, .main,
   .closer, .worker 0, .worker 1, .deliver 1, .deliver 0,
   .worker 0, .worker 0, .worker 1, .worker 1, .worker 1, .closer, .closer, .recvClosed]

/-- The state after `fullSchedule`. -/
def finished : State :=
  { main := .returned
    closer := .done
    workers := [{ dir := svenska, pc := .exited }, { dir := finska, pc := .exited }]
    sem := 0
    wg := 0
    waiters := 0
    sema := 0
    closed := true
    received := [outcome finska, outcome svenska]
    drained := true
    panic := none }

/-- Two collections and one permit with a receiver in another goroutine. -/
def twoOnOnePermitConcurrent : Config := config 1 [svenska, finska] none .concurrent

/-- The closing goroutine parks in `wg.Wait()` during the first run; the first run ends and
its `wg.Done()` releases the closing goroutine; the caller then starts the second run and
returns; the closing goroutine goes on before the second run has called `wg.Done()`. -/
def reuseSchedule : List Event :=
  [.main, .main, .main, .main, .main, .closer, .worker 0, .deliver 0,
   .worker 0, .worker 0, .worker 0, .main, .main, .main, .main, .closer]

/-- The state after `reuseSchedule`: `wg.Wait()` has panicked. -/
def reused : State :=
  { main := .returned
    closer := .parked
    workers := [{ dir := svenska, pc := .exited }, { dir := finska, pc := .call }]
    sem := 1
    wg := 1
    waiters := 0
    sema := 0
    closed := false
    received := [outcome svenska]
    drained := false
    panic := some .waitGroupReused }

end examples

/-! ## Theorems -/

set_option maxRecDepth 8000

namespace strings

theorem indexOpt_eq_none_iff (s substr : GoString) :
    indexOpt s substr = none ↔ ¬ substr <:+: s := by
  induction s with
  | nil =>
    simp only [indexOpt, List.infix_nil]
    by_cases h : substr = []
    · subst h; simp
    · have : ¬ (substr.isPrefixOf [] = true) := by
        rw [List.isPrefixOf_iff_prefix, List.prefix_nil]; exact h
      simp [this, h]
  | cons c rest ih =>
    rw [indexOpt, List.infix_cons_iff]
    by_cases h : substr.isPrefixOf (c :: rest) = true
    · have h2 := List.isPrefixOf_iff_prefix.mp h
      simp [h, h2]
    · have h2 : ¬ substr <+: c :: rest := fun hp => h (List.isPrefixOf_iff_prefix.mpr hp)
      have h3 : substr.isPrefixOf (c :: rest) = false := (Bool.not_eq_true _).mp h
      rw [h3]
      simp only [Bool.false_eq_true, if_false, Option.map_eq_none', ih]
      tauto

theorem indexOpt_first (a substr r : GoString)
    (h : ¬ substr <:+: a ++ substr.dropLast) :
    indexOpt (a ++ substr ++ r) substr = some a.length := by
  induction a with
  | nil =>
    have hp : substr.isPrefixOf (substr ++ r) = true :=
      List.isPrefixOf_iff_prefix.mpr (List.prefix_append _ _)
    simp only [List.nil_append, List.length_nil]
    cases hs : substr ++ r with
    | nil => rw [hs] at hp; simp [indexOpt, hp]
    | cons c rest => rw [hs] at hp; simp [indexOpt, hp]
  | cons x a ih =>
    have hnp : ¬ (substr.isPrefixOf (x :: a ++ substr ++ r) = true) := by
      intro hp
      have h1 : substr <+: x :: a ++ substr ++ r := List.isPrefixOf_iff_prefix.mp hp
      have h2 : (x :: a ++ substr.dropLast) <+: x :: a ++ substr ++ r := by
        have : (x :: a ++ substr.dropLast) <+: (x :: a) ++ substr :=
          (List.prefix_append_right_inj (x :: a)).mpr (List.dropLast_prefix substr)
        exact this.trans (List.prefix_append _ _)
      have h3 : substr.length ≤ (x :: a ++ substr.dropLast).length := by
        simp only [List.cons_append, List.length_cons, List.length_append, List.length_dropLast]
        omega
      exact h (List.prefix_of_prefix_length_le h1 h2 h3).isInfix
    have hrec : ¬ substr <:+: a ++ substr.dropLast := fun hi => h (List.infix_cons hi)
    have := ih hrec
    simp only [List.cons_append, List.append_assoc] at hnp this ⊢
    rw [indexOpt]
    simp [hnp, this]

theorem Index_eq_neg_one_iff (s substr : GoString) :
    Index s substr = -1 ↔ ¬ substr <:+: s := by
  rw [← indexOpt_eq_none_iff]
  unfold Index
  cases h : indexOpt s substr with
  | none => simp
  | some i => simp

theorem Index_first (a substr r : GoString)
    (h : ¬ substr <:+: a ++ substr.dropLast) :
    Index (a ++ substr ++ r) substr = (a.length : Int) := by
  unfold Index
  rw [indexOpt_first a substr r h]

theorem HasSuffix_iff (s suffix : GoString) :
    HasSuffix s suffix = true ↔ suffix <:+ s := by
  unfold HasSuffix
  rw [List.suffix_iff_eq_drop]
  constructor
  · intro h
    simp only [Bool.and_eq_true, decide_eq_true_eq, beq_iff_eq] at h
    exact h.2.symm
  · intro h
    simp only [Bool.and_eq_true, decide_eq_true_eq, beq_iff_eq]
    refine ⟨?_, h.symm⟩
    have := congrArg List.length h
    simp only [List.length_drop] at this
    omega

end strings

namespace parser

theorem lit_gt : lit ">" = [62] := by decide

theorem doctypeOpen_dropLast : doctypeOpen.dropLast = lit "<!DOCTYP" := by decide

theorem singleton_infix_iff_mem (x : UInt8) (l : GoString) : [x] <:+: l ↔ x ∈ l := by
  constructor
  · rintro ⟨s, t, rfl⟩
    simp
  · intro h
    obtain ⟨s, t, rfl⟩ := List.append_of_mem h
    exact ⟨s, t, by simp⟩

theorem gt_not_in_append (b : GoString) (h : ¬ lit ">" <:+: b) :
    ¬ lit ">" <:+: (doctypeOpen ++ b) ++ (lit ">").dropLast := by
  rw [lit_gt] at h ⊢
  rw [singleton_infix_iff_mem] at h ⊢
  have hd : (62 : UInt8) ∉ doctypeOpen := by decide
  simp only [List.dropLast_single, List.append_nil, List.mem_append, not_or]
  exact ⟨hd, h⟩

theorem RemoveDOCTYPE_absent (s : GoString) (h : ¬ doctypeOpen <:+: s) :
    RemoveDOCTYPE s = s := by
  unfold RemoveDOCTYPE
  have := (strings.Index_eq_neg_one_iff s doctypeOpen).mpr h
  simp [this]

theorem RemoveDOCTYPE_unterminated (a b : GoString)
    (h1 : ¬ doctypeOpen <:+: a ++ lit "<!DOCTYP") (h2 : ¬ lit ">" <:+: b) :
    RemoveDOCTYPE (a ++ doctypeOpen ++ b) = a ++ doctypeOpen ++ b := by
  rw [← doctypeOpen_dropLast] at h1
  have hs := strings.Index_first a doctypeOpen b h1
  have hgt : ¬ lit ">" <:+: doctypeOpen ++ b := by
    have := gt_not_in_append b h2
    rwa [lit_gt, List.dropLast_single, List.append_nil, ← lit_gt] at this
  have he := (strings.Index_eq_neg_one_iff (doctypeOpen ++ b) (lit ">")).mpr hgt
  unfold RemoveDOCTYPE
  simp only [hs, Int.toNat_ofNat]
  have hne : ¬ ((a.length : Int) = -1) := by omega
  rw [if_neg hne]
  have hd : List.drop a.length (a ++ doctypeOpen ++ b) = doctypeOpen ++ b := by
    rw [List.append_assoc, List.drop_left]
  rw [hd, he]
  simp

theorem RemoveDOCTYPE_strips (a b c : GoString)
    (h1 : ¬ doctypeOpen <:+: a ++ lit "<!DOCTYP") (h2 : ¬ lit ">" <:+: b) :
    RemoveDOCTYPE (a ++ doctypeOpen ++ b ++ lit ">" ++ c) = a ++ c := by
  rw [← doctypeOpen_dropLast] at h1
  have hs := strings.Index_first a doctypeOpen (b ++ lit ">" ++ c) h1
  have he := strings.Index_first (doctypeOpen ++ b) (lit ">") c (gt_not_in_append b h2)
  have hassoc : a ++ doctypeOpen ++ b ++ lit ">" ++ c = a ++ doctypeOpen ++ (b ++ lit ">" ++ c) := by
    simp only [List.append_assoc]
  have hd : List.drop a.length (a ++ doctypeOpen ++ (b ++ lit ">" ++ c))
      = doctypeOpen ++ b ++ lit ">" ++ c := by
    simp only [List.append_assoc, List.drop_left]
  unfold RemoveDOCTYPE
  rw [hassoc]
  simp only [hs, Int.toNat_ofNat]
  have hne : ¬ ((a.length : Int) = -1) := by omega
  rw [if_neg hne, hd, he]
  have hne2 : ¬ (((doctypeOpen ++ b).length : Int) = -1) := by omega
  rw [if_neg hne2]
  have hn : ((a.length : Int) + ((doctypeOpen ++ b).length : Int) + 1).toNat
      = (a ++ doctypeOpen ++ b ++ lit ">").length := by
    have : (lit ">").length = 1 := by decide
    simp only [List.length_append, this]
    omega
  rw [hn, ← hassoc, List.drop_left]
  simp only [List.append_assoc, List.take_left]

/-- C6. `RemoveDOCTYPE` leaves a string without `<!DOCTYPE` unchanged, leaves it unchanged
when no `>` follows the first `<!DOCTYPE`, and otherwise removes exactly the span from the
first `<!DOCTYPE` through the first `>` after it. -/
theorem RemoveDOCTYPE_spec (s : GoString) :
    (¬ lit "<!DOCTYPE" <:+: s → RemoveDOCTYPE s = s) ∧
    (∀ a b : GoString, s = a ++ lit "<!DOCTYPE" ++ b →
      ¬ lit "<!DOCTYPE" <:+: a ++ lit "<!DOCTYP" → ¬ lit ">" <:+: b →
      RemoveDOCTYPE s = s) ∧
    (∀ a b c : GoString, s = a ++ lit "<!DOCTYPE" ++ b ++ lit ">" ++ c →
      ¬ lit "<!DOCTYPE" <:+: a ++ lit "<!DOCTYP" → ¬ lit ">" <:+: b →
      RemoveDOCTYPE s = a ++ c) := by
  refine ⟨RemoveDOCTYPE_absent s, ?_, ?_⟩
  · intro a b hs h1 h2
    rw [hs]
    exact RemoveDOCTYPE_unterminated a b h1 h2
  · intro a b c hs h1 h2
    rw [hs]
    exact RemoveDOCTYPE_strips a b c h1 h2

/-- Instances of C6: a listing without a declaration, one whose declaration is not closed,
and one with a declaration between a prologue and the root element. -/
theorem RemoveDOCTYPE_spec_witness :
    RemoveDOCTYPE (lit "<svn></svn>") = lit "<svn></svn>" ∧
    RemoveDOCTYPE (lit "a>b<!DOCTYPE svn [") = lit "a>b<!DOCTYPE svn [" ∧
    RemoveDOCTYPE (lit "<?xml?><!DOCTYPE svn [x]><svn/>") = lit "<?xml?>" ++ lit "<svn/>" :=
  ⟨(RemoveDOCTYPE_spec (lit "<svn></svn>")).1 (by decide),
   (RemoveDOCTYPE_spec (lit "a>b<!DOCTYPE svn [")).2.1 (lit "a>b") (lit " svn [")
      (by decide) (by decide) (by decide),
   (RemoveDOCTYPE_spec (lit "<?xml?><!DOCTYPE svn [x]><svn/>")).2.2
      (lit "<?xml?>") (lit " svn [x]") (lit "<svn/>") (by decide) (by decide) (by decide)⟩

end parser

namespace parser

theorem foldl_keep {α : Type} (p : α → Bool) (l acc : List α) :
    l.foldl (fun xs x => if p x then xs ++ [x] else xs) acc = acc ++ l.filter p := by
  induction l generalizing acc with
  | nil => simp
  | cons x l ih =>
    simp only [List.foldl_cons, ih, List.filter_cons]
    by_cases h : p x = true <;> simp [h]

theorem ParseDirectoryContents_ok (Unmarshal : GoString → Except GoError models.SVN)
    (xmlContent : GoString) (svn : models.SVN)
    (hdec : Unmarshal (RemoveDOCTYPE xmlContent) = .ok svn) :
    ParseDirectoryContents Unmarshal xmlContent
      = .ok (svn.Index.Files.filter (fun f => decide (lit ".xml" <:+ f.Href))) := by
  unfold ParseDirectoryContents
  simp only [hdec, foldl_keep, List.nil_append]
  congr 1
  apply List.filter_congr
  intro f _
  rw [Bool.eq_iff_iff, decide_eq_true_iff]
  exact strings.HasSuffix_iff f.Href xmlExt

/-- C5. When the listing decodes, `ParseDirectoryContents` returns exactly the decoded file
entries whose href ends in `.xml`, unchanged and in document order; their number is the
number of such entries, whatever the other entries are. -/
theorem ParseDirectoryContents_spec (Unmarshal : GoString → Except GoError models.SVN)
    (xmlContent : GoString) (svn : models.SVN)
    (hdec : Unmarshal (RemoveDOCTYPE xmlContent) = .ok svn) :
    ParseDirectoryContents Unmarshal xmlContent
      = .ok (svn.Index.Files.filter (fun f => decide (lit ".xml" <:+ f.Href))) ∧
    ∀ xmlFiles, ParseDirectoryContents Unmarshal xmlContent = .ok xmlFiles →
      xmlFiles.length = svn.Index.Files.countP (fun f => decide (lit ".xml" <:+ f.Href)) ∧
      xmlFiles.length + svn.Index.Files.countP (fun f => !decide (lit ".xml" <:+ f.Href))
        = svn.Index.Files.length := by
  have h := ParseDirectoryContents_ok Unmarshal xmlContent svn hdec
  refine ⟨h, ?_⟩
  intro xmlFiles hx
  rw [h] at hx
  injection hx with hx
  subst hx
  rw [← List.countP_eq_length_filter]
  refine ⟨rfl, ?_⟩
  have := List.length_eq_countP_add_countP (fun f : models.File => decide (lit ".xml" <:+ f.Href))
    svn.Index.Files
  simp only [Bool.not_eq_true, Bool.decide_eq_false] at this ⊢
  omega

theorem foldl_snoc_map {α β : Type} (f : α → β) (l : List α) (acc : List β) :
    l.foldl (fun ys x => ys ++ [f x]) acc = acc ++ l.map f := by
  induction l generalizing acc with
  | nil => simp
  | cons x l ih => simp [ih]

theorem lookup_iff (l : List (GoString × GoString)) (hnd : (l.map Prod.fst).Nodup)
    (key val : GoString) :
    (l.find? (fun kv => kv.1 == key)).map (fun kv => kv.2) = some val ↔ (key, val) ∈ l := by
  induction l with
  | nil => simp
  | cons kv l ih =>
    obtain ⟨k, v⟩ := kv
    simp only [List.map_cons, List.nodup_cons] at hnd
    rw [List.find?_cons]
    by_cases hk : k = key
    · subst hk
      have hnot : ∀ v2, (k, v2) ∉ l := fun v2 hm => hnd.1 (List.mem_map_of_mem Prod.fst hm)
      simp only [beq_self_eq_true, Option.map_some', Option.some.injEq, List.mem_cons,
        Prod.mk.injEq, true_and]
      constructor
      · intro h; exact Or.inl h.symm
      · rintro (h | h)
        · exact h.symm
        · exact absurd h (hnot val)
    · have hb : (k == key) = false := by simpa using hk
      simp only [hb, List.mem_cons, Prod.mk.injEq]
      rw [ih hnd.2]
      constructor
      · intro h; exact Or.inr h
      · rintro (h | h)
        · exact absurd h.1.symm hk
        · exact h

theorem LanguageMap_keys_nodup : (models.LanguageMap.map Prod.fst).Nodup := by decide

/-- C9. When the catalog is fetched and decodes, `FetchDirectories` returns one `Directory`
per decoded `dir` entry, in document order: `Code` is the entry's name, `Name` is
`LanguageMap[name]` when the name is a key of the table and `strings.Title(name)` otherwise,
`URL` is `baseURL` followed by the entry's href, `Description` is
`"Swedish-" ++ Name ++ " lexicon"` and `Selected` is false; `"grekiska"` is mapped to
`"Greek"`. -/
theorem FetchDirectories_spec (w : CatalogWorld) (baseURL : GoString) (resp : Response)
    (body : GoString) (svn : models.SVN)
    (hget : w.get = .ok resp) (hread : w.readAll = .ok body)
    (hdec : w.Unmarshal (RemoveDOCTYPE body) = .ok svn) :
    FetchDirectories w baseURL = .ok (svn.Index.Dirs.map (fun dir =>
      { Code := dir.Name
        Name := (models.LanguageMap_get dir.Name).getD (w.Title dir.Name)
        URL := baseURL ++ dir.Href
        Description :=
          lit "Swedish-" ++ (models.LanguageMap_get dir.Name).getD (w.Title dir.Name) ++ lit " lexicon"
        Selected := false })) ∧
    models.LanguageMap_get (lit "grekiska") = some (lit "Greek") ∧
    (∀ key val, models.LanguageMap_get key = some val ↔ (key, val) ∈ models.LanguageMap) := by
  refine ⟨?_, by decide, ?_⟩
  · unfold FetchDirectories
    simp only [hget, hread, hdec]
    rw [foldl_snoc_map (fun dir : models.Dir =>
      ({ Code := dir.Name
         Name := (match models.LanguageMap_get dir.Name with
           | some name => name
           | none => w.Title dir.Name)
         URL := baseURL ++ dir.Href
         Description := lit "Swedish-" ++ (match models.LanguageMap_get dir.Name with
           | some name => name
           | none => w.Title dir.Name) ++ lit " lexicon"
         Selected := false } : models.Directory))]
    simp only [List.nil_append]
    congr 1
    apply List.map_congr_left
    intro dir _
    cases models.LanguageMap_get dir.Name <;> rfl
  · intro key val
    exact lookup_iff models.LanguageMap LanguageMap_keys_nodup key val

end parser

namespace parser

/-- An instance of C5: of `a.xml`, `b.xml` and `c.txt` the first two are returned. -/
theorem ParseDirectoryContents_spec_witness :
    ParseDirectoryContents (examples.decode examples.listing) examples.listingPage
      = .ok [examples.fileEntry "a.xml", examples.fileEntry "b.xml"] :=
  (ParseDirectoryContents_spec (examples.decode examples.listing) examples.listingPage
    examples.listing (by decide)).1.trans (by decide)

/-- An instance of C9: `grekiska` is named `Greek`, `klingon` is named by `strings.Title`. -/
theorem FetchDirectories_spec_witness :
    FetchDirectories examples.catalogWorld (lit "https://sprakresurser.isof.se/lexin/")
      = .ok [
        { Code := lit "grekiska", Name := lit "Greek"
          URL := lit "https://sprakresurser.isof.se/lexin/grekiska/"
          Description := lit "Swedish-Greek lexicon", Selected := false },
        { Code := lit "klingon", Name := lit "Title:klingon"
          URL := lit "https://sprakresurser.isof.se/lexin/klingon/"
          Description := lit "Swedish-Title:klingon lexicon", Selected := false }] :=
  (FetchDirectories_spec examples.catalogWorld (lit "https://sprakresurser.isof.se/lexin/")
    examples.ok200 examples.listingPage examples.catalog rfl rfl (by decide)).1.trans (by decide)

end parser

namespace fetcher

theorem wrapInt64_add_wrapInt64 (x b : Int) : wrapInt64 (wrapInt64 x + b) = wrapInt64 (x + b) := by
  unfold wrapInt64
  omega

theorem wrapInt64_of_range (x : Int) (h1 : -9223372036854775808 ≤ x)
    (h2 : x < 9223372036854775808) : wrapInt64 x = x := by
  unfold wrapInt64
  omega

theorem downloadLoop_tally (w : World) (dir : models.Directory) (dirPath : GoString)
    (files : List models.File) (i : Nat) (st : LoopState) (x : Int)
    (hx : st.totalBytes = wrapInt64 x) :
    (downloadLoop w dir dirPath files i st).FileCount
      = st.FileCount + (okBytes (transferResults w dir dirPath files i)).length ∧
    (downloadLoop w dir dirPath files i st).totalBytes
      = wrapInt64 (x + (okBytes (transferResults w dir dirPath files i)).sum) := by
  induction files generalizing i st x with
  | nil => simp [downloadLoop, transferResults, okBytes, hx]
  | cons file rest ih =>
    rw [downloadLoop, transferResults]
    cases hdf : downloadFile (w.file i) (w.Join dirPath file.Name) (dir.URL ++ file.Href) with
    | mk r tr =>
      cases r with
      | error err =>
        simp only []
        have := ih (i + 1) { st with trace := st.trace ++ tr ++
          [Effect.Printf (lit "Error downloading " ++ file.Name ++ lit ": " ++ err)] } x hx
        simpa [okBytes] using this
      | ok bytes =>
        simp only []
        have := ih (i + 1) { FileCount := st.FileCount + 1
                             totalBytes := wrapInt64 (st.totalBytes + bytes)
                             trace := st.trace ++ tr } (x + bytes)
          (by simp only [hx]; exact wrapInt64_add_wrapInt64 x bytes)
        simp only [okBytes, List.filterMap_cons, List.length_cons, List.sum_cons] at this ⊢
        constructor
        · rw [this.1]; push_cast; ring
        · rw [this.2]; congr 1; ring

theorem sum_nonneg_of_forall (l : List Int) (h : ∀ b ∈ l, 0 ≤ b) : 0 ≤ l.sum := by
  induction l with
  | nil => simp
  | cons a l ih =>
    simp only [List.sum_cons]
    have h1 := h a (List.mem_cons_self a l)
    have h2 := ih (fun b hb => h b (List.mem_cons_of_mem a hb))
    omega

/-- C1. When directory creation, listing fetch and read, the write of `index.html`, the
parse and the metadata write all succeed, `downloadDirectory` returns `Success = true` and
no error, `FileCount` is the number of `.xml` entries of the listing whose transfer
succeeded, and `TotalBytes` is the `int64` sum of the byte counts those transfers returned,
which is their exact sum whenever that sum fits in an `int64`. -/
theorem downloadDirectory_tally (dm : DownloadManager) (w : World) (dir : models.Directory)
    (resp : Response) (indexContent : GoString) (svn : models.SVN)
    (hmkdir : w.mkdirAll = none) (hget : w.get = .ok resp)
    (hread : w.readAll = .ok indexContent) (hwrite : w.writeFile = none)
    (hparse : w.Unmarshal (parser.RemoveDOCTYPE indexContent) = .ok svn)
    (hcreate : w.createMeta = none) (hfprintf : w.fprintf = none) :
    (downloadDirectory dm w dir).1.Success = true ∧
    (downloadDirectory dm w dir).1.Error = none ∧
    (downloadDirectory dm w dir).1.FileCount
      = (okBytes (transferResults w dir (w.Join dm.OutputDir dir.Code)
          (svn.Index.Files.filter (fun f => decide (lit ".xml" <:+ f.Href))) 0)).length ∧
    (downloadDirectory dm w dir).1.TotalBytes
      = wrapInt64 (okBytes (transferResults w dir (w.Join dm.OutputDir dir.Code)
          (svn.Index.Files.filter (fun f => decide (lit ".xml" <:+ f.Href))) 0)).sum ∧
    ((∀ b ∈ okBytes (transferResults w dir (w.Join dm.OutputDir dir.Code)
          (svn.Index.Files.filter (fun f => decide (lit ".xml" <:+ f.Href))) 0), 0 ≤ b) →
      (okBytes (transferResults w dir (w.Join dm.OutputDir dir.Code)
          (svn.Index.Files.filter (fun f => decide (lit ".xml" <:+ f.Href))) 0)).sum
        < 9223372036854775808 →
      (downloadDirectory dm w dir).1.TotalBytes
        = (okBytes (transferResults w dir (w.Join dm.OutputDir dir.Code)
          (svn.Index.Files.filter (fun f => decide (lit ".xml" <:+ f.Href))) 0)).sum) := by
  have hp := parser.ParseDirectoryContents_ok w.Unmarshal indexContent svn hparse
  have hl := fun st => downloadLoop_tally w dir (w.Join dm.OutputDir dir.Code)
    (svn.Index.Files.filter (fun f => decide (lit ".xml" <:+ f.Href))) 0 st 0
  have key : (downloadDirectory dm w dir).1.Success = true ∧
      (downloadDirectory dm w dir).1.Error = none ∧
      (downloadDirectory dm w dir).1.FileCount
        = (okBytes (transferResults w dir (w.Join dm.OutputDir dir.Code)
            (svn.Index.Files.filter (fun f => decide (lit ".xml" <:+ f.Href))) 0)).length ∧
      (downloadDirectory dm w dir).1.TotalBytes
        = wrapInt64 (okBytes (transferResults w dir (w.Join dm.OutputDir dir.Code)
            (svn.Index.Files.filter (fun f => decide (lit ".xml" <:+ f.Href))) 0)).sum := by
    unfold downloadDirectory
    simp only [hmkdir, hget, hread, hwrite, hp, hcreate, hfprintf]
    refine ⟨trivial, trivial, ?_, ?_⟩
    · rw [(hl _ (by rfl)).1]; simp
    · rw [(hl _ (by rfl)).2]; simp
  refine ⟨key.1, key.2.1, key.2.2.1, key.2.2.2, ?_⟩
  intro hnn hlt
  rw [key.2.2.2]
  exact wrapInt64_of_range _ (by have := sum_nonneg_of_forall _ hnn; omega) hlt

end fetcher

namespace fetcher

/-- An instance of C1, the scenario of the specification: the listing holds `a.xml`,
`b.xml` and `c.txt`, every transfer succeeds, `a.xml` has 5 bytes and `b.xml` has 7. -/
theorem downloadDirectory_tally_witness :
    (downloadDirectory examples.manager examples.world examples.svenska).1.Success = true ∧
    (downloadDirectory examples.manager examples.world examples.svenska).1.Error = none ∧
    (downloadDirectory examples.manager examples.world examples.svenska).1.FileCount = 2 ∧
    (downloadDirectory examples.manager examples.world examples.svenska).1.TotalBytes = 5 + 7 := by
  have h := downloadDirectory_tally examples.manager examples.world examples.svenska
    examples.ok200 examples.listingPage examples.listing rfl rfl rfl rfl (by decide) rfl rfl
  refine ⟨h.1, h.2.1, h.2.2.1.trans (by decide), (h.2.2.2.2 (by decide) (by decide)).trans (by decide)⟩

/-- C7. Whatever the calls of a `downloadDirectory` run return, an outcome with
`Success = true` has no error. -/
theorem downloadDirectory_success_no_error (dm : DownloadManager) (w : World)
    (dir : models.Directory) (h : (downloadDirectory dm w dir).1.Success = true) :
    (downloadDirectory dm w dir).1.Error = none := by
  unfold downloadDirectory at h ⊢
  repeat' split at h
  all_goals first
    | rfl
    | (simp at h)

/-- An instance of C7: the scenario's outcome is a success and carries no error. -/
theorem downloadDirectory_success_no_error_witness :
    (downloadDirectory examples.manager examples.world examples.svenska).1.Error = none :=
  downloadDirectory_success_no_error examples.manager examples.world examples.svenska (by decide)

/-- C8. When the steps up to the file transfers ran and creating `metadata.txt` fails, or
creating it succeeds and writing it fails, `downloadDirectory` returns `Success = false`
with the corresponding metadata error, whatever the transfers returned. -/
theorem downloadDirectory_metadata_failure (dm : DownloadManager) (w : World)
    (dir : models.Directory) (resp : Response) (indexContent : GoString)
    (xmlFiles : List models.File) (err : GoError)
    (hmkdir : w.mkdirAll = none) (hget : w.get = .ok resp)
    (hread : w.readAll = .ok indexContent) (hwrite : w.writeFile = none)
    (hparse : parser.ParseDirectoryContents w.Unmarshal indexContent = .ok xmlFiles)
    (hmeta : w.createMeta = some err ∨ (w.createMeta = none ∧ w.fprintf = some err)) :
    (downloadDirectory dm w dir).1.Success = false ∧
    (downloadDirectory dm w dir).1.Error
      = some ((if w.createMeta = none then lit "failed to write metadata: "
               else lit "failed to create metadata file: ") ++ err) := by
  unfold downloadDirectory
  rcases hmeta with hc | ⟨hc, hf⟩
  · simp [hmkdir, hget, hread, hwrite, hparse, hc]
  · simp [hmkdir, hget, hread, hwrite, hparse, hc, hf]

/-- An instance of C8: both transfers of the scenario succeed and the write of
`metadata.txt` fails. -/
theorem downloadDirectory_metadata_failure_witness :
    (downloadDirectory examples.manager
      { examples.world with fprintf := some (lit "no space left on device") }
      examples.svenska).1.Success = false ∧
    (downloadDirectory examples.manager
      { examples.world with fprintf := some (lit "no space left on device") }
      examples.svenska).1.Error
      = some (lit "failed to write metadata: no space left on device") := by
  have h := downloadDirectory_metadata_failure examples.manager
    { examples.world with fprintf := some (lit "no space left on device") }
    examples.svenska examples.ok200 examples.listingPage
    [examples.fileEntry "a.xml", examples.fileEntry "b.xml"]
    (lit "no space left on device") rfl rfl rfl rfl (by decide) (Or.inr ⟨rfl, rfl⟩)
  exact ⟨h.1, h.2.trans (by decide)⟩

/-- The half of C2 that the code keeps: when `http.Get` itself fails, the outcome is a
failure with a fetch error and zero tallies, and no later step runs. -/
theorem downloadDirectory_fetch_error (dm : DownloadManager) (w : World)
    (dir : models.Directory) (err : GoError)
    (hmkdir : w.mkdirAll = none) (hget : w.get = .error err) :
    downloadDirectory dm w dir
      = ({ Directory := dir, Success := false, FileCount := 0, TotalBytes := 0
           Error := some (lit "failed to fetch directory: " ++ err) },
         [Effect.MkdirAll (w.Join dm.OutputDir dir.Code), Effect.Get dir.URL]) := by
  unfold downloadDirectory
  simp [hmkdir, hget]

/-- C2, the code at the failing input: the listing request is answered with status 404.
`downloadDirectory` does not look at the status: it reads the body, writes it to
`index.html` and hands it to the parser. With an error page as body the outcome carries a
parse error, not a fetch error; with a body that decodes the outcome is a success. -/
theorem downloadDirectory_ignores_listing_status :
    (downloadDirectory examples.manager
      { examples.world with get := .ok examples.notFound, readAll := .ok (lit "<html>404</html>") }
      examples.svenska)
      = ({ Directory := examples.svenska, Success := false, FileCount := 0, TotalBytes := 0
           Error := some (lit ("failed to parse directory contents: failed to parse directory XML: "
             ++ "expected element type <svn> but have <html>")) },
         [Effect.MkdirAll (lit "lexin_downloads/svenska"),
          Effect.Get (lit "http://lexin/svenska/"),
          Effect.ReadAll (lit "http://lexin/svenska/"),
          Effect.WriteFile (lit "lexin_downloads/svenska/index.html") (lit "<html>404</html>"),
          Effect.Unmarshal (lit "<html>404</html>"),
          Effect.CloseBody (lit "http://lexin/svenska/")]) ∧
    (downloadDirectory examples.manager
      { examples.world with get := .ok examples.notFound } examples.svenska).1
      = { Directory := examples.svenska, Success := true, FileCount := 2, TotalBytes := 12
          Error := none } := by
  constructor <;> decide

end fetcher

namespace fetcher

theorem execFrom_invariant (cfg : Config) (P : State → Prop)
    (hstep : ∀ s e t, P s → step cfg s e = some t → P t) :
    ∀ (sched : List Event) (s t : State), P s → execFrom cfg s sched = some t → P t := by
  intro sched
  induction sched with
  | nil =>
    intro s t hs h
    simp only [execFrom, Option.some.injEq] at h
    exact h ▸ hs
  | cons e es ih =>
    intro s t hs h
    rw [execFrom] at h
    cases hst : step cfg s e with
    | none => rw [hst] at h; simp at h
    | some u =>
      rw [hst] at h
      exact ih u t (hstep s e u hs hst) h

theorem step_sound (cfg : Config) (s : State) (e : Event) (t : State)
    (h : step cfg s e = some t) : Step cfg s e t := by
  unfold step at h
  split at h
  · simp at h
  · rename_i hp
    have hp : s.panic = none := by simpa using hp
    cases e with
    | main =>
      simp only [stepMain] at h
      split at h
      · rename_i hm
        split at h
        · rename_i err he
          simp only [Option.some.injEq] at h
          subst h
          exact Step.mkdirFail s err hp hm he
        · rename_i he
          simp only [Option.some.injEq] at h
          subst h
          exact Step.mkdirOk s hp hm he
      · rename_i hm
        split at h
        · rename_i hc
          simp only [Option.some.injEq] at h
          subst h
          exact Step.closeResultsPanic s hp hm hc
        · rename_i hc
          simp only [Option.some.injEq] at h
          subst h
          exact Step.closeResults s hp hm (by simpa using hc)
      · rename_i hm
        simp only [Option.some.injEq] at h
        subst h
        exact Step.goCloser s hp hm
      · rename_i hm
        simp only [Option.some.injEq] at h
        subst h
        exact Step.loopEnd s hp hm
      · rename_i dir rest hm
        split at h
        · rename_i hv
          simp only [Option.some.injEq] at h
          subst h
          exact Step.addNegative s dir rest hp hm hv
        · rename_i hv
          split at h
          · rename_i hw
            simp only [Option.some.injEq] at h
            subst h
            exact Step.addMisuse s dir rest hp hm hv hw
          · rename_i hw
            split at h
            · rename_i hr
              simp only [Option.some.injEq] at h
              subst h
              exact Step.loopAdd s dir rest hp hm hv hw hr
            · rename_i hr
              simp only [Option.some.injEq] at h
              subst h
              exact Step.addRelease s dir rest hp hm hv hw hr
      · rename_i dir rest hm
        split at h
        · rename_i hs
          simp only [Option.some.injEq] at h
          subst h
          exact Step.acquire s dir rest hp hm hs
        · simp at h
      · rename_i dir rest hm
        simp only [Option.some.injEq] at h
        subst h
        exact Step.spawn s dir rest hp hm
      · simp at h
    | closer =>
      simp only [stepCloser] at h
      split at h
      · simp at h
      · rename_i hc
        split at h
        · rename_i hw
          simp only [Option.some.injEq] at h
          subst h
          exact Step.wait s hp hc hw
        · rename_i hw
          simp only [Option.some.injEq] at h
          subst h
          exact Step.park s hp hc hw
      · rename_i hc
        split at h
        · rename_i hs
          split at h
          · rename_i hw
            simp only [Option.some.injEq] at h
            subst h
            exact Step.wakePanic s hp hc hs hw
          · rename_i hw
            simp only [Option.some.injEq] at h
            subst h
            exact Step.wake s hp hc hs hw
        · simp at h
      · rename_i hc
        split at h
        · rename_i hcl
          simp only [Option.some.injEq] at h
          subst h
          exact Step.closePanic s hp hc hcl
        · rename_i hcl
          simp only [Option.some.injEq] at h
          subst h
          exact Step.close s hp hc (by simpa using hcl)
      · simp at h
    | worker i =>
      simp only [stepWorker] at h
      split at h
      · simp at h
      · rename_i w hw
        split at h
        · rename_i hpc
          simp only [Option.some.injEq] at h
          subst h
          exact Step.call s i w hp hw hpc
        · rename_i r hpc
          split at h
          · rename_i hcl
            simp only [Option.some.injEq] at h
            subst h
            exact Step.sendPanic s i w r hp hw hpc hcl
          · simp at h
        · rename_i p hpc
          split at h
          · rename_i hs
            simp only [Option.some.injEq] at h
            subst h
            exact Step.release s i w p hp hw hpc hs
          · simp at h
        · rename_i p hpc
          split at h
          · rename_i hv
            simp only [Option.some.injEq] at h
            subst h
            exact Step.doneNegative s i w p hp hw hpc hv
          · rename_i hv
            split at h
            · rename_i hr
              simp only [Option.some.injEq] at h
              subst h
              exact Step.done s i w p hp hw hpc hv hr
            · rename_i hr
              simp only [Option.some.injEq] at h
              subst h
              exact Step.doneZero s i w p hp hw hpc hv hr
        · rename_i p n hpc
          split at h
          · rename_i hc
            simp only [Option.some.injEq] at h
            subst h
            exact Step.notifyPanic s i w p n hp hw hpc hc
          · rename_i hc
            simp only [Option.some.injEq] at h
            subst h
            exact Step.notify s i w p n hp hw hpc hc
        · simp at h
    | deliver i =>
      simp only [stepDeliver] at h
      split at h
      · simp at h
      · rename_i w hw
        split at h
        · rename_i r hpc
          split at h
          · rename_i hc
            simp only [Option.some.injEq] at h
            subst h
            simp only [Bool.and_eq_true, Bool.not_eq_true'] at hc
            exact Step.deliver s i w r hp hw hpc hc.1 hc.2
          · simp at h
        · simp at h
    | recvClosed =>
      simp only [stepRecvClosed] at h
      split at h
      · rename_i hc
        simp only [Option.some.injEq] at h
        subst h
        simp only [Bool.and_eq_true] at hc
        exact Step.recvClosed s hp hc.1 hc.2
      · simp at h

theorem step_main (cfg : Config) (s : State) (hp : s.panic = none) :
    step cfg s .main = stepMain cfg s := by
  simp [step, hp]

theorem step_closer (cfg : Config) (s : State) (hp : s.panic = none) :
    step cfg s .closer = stepCloser s := by
  simp [step, hp]

theorem step_worker (cfg : Config) (s : State) (i : Nat) (hp : s.panic = none) :
    step cfg s (.worker i) = stepWorker cfg s i := by
  simp [step, hp]

theorem step_deliver (cfg : Config) (s : State) (i : Nat) (hp : s.panic = none) :
    step cfg s (.deliver i) = stepDeliver cfg s i := by
  simp [step, hp]

theorem step_recvClosed (cfg : Config) (s : State) (hp : s.panic = none) :
    step cfg s .recvClosed = stepRecvClosed cfg s := by
  simp [step, hp]

theorem step_complete (cfg : Config) (s : State) (e : Event) (t : State)
    (h : Step cfg s e t) : step cfg s e = some t := by
  cases h with
  | mkdirFail err hp hm he => rw [step_main cfg s hp]; simp only [stepMain, hm, he]
  | mkdirOk hp hm he => rw [step_main cfg s hp]; simp only [stepMain, hm, he]
  | closeResultsPanic hp hm hc => rw [step_main cfg s hp]; simp [stepMain, hm, hc]
  | closeResults hp hm hc => rw [step_main cfg s hp]; simp [stepMain, hm, hc]
  | goCloser hp hm => rw [step_main cfg s hp]; simp only [stepMain, hm]
  | loopEnd hp hm => rw [step_main cfg s hp]; simp only [stepMain, hm]
  | addNegative dir rest hp hm hv =>
    rw [step_main cfg s hp]; simp only [stepMain, hm, if_pos hv]
  | addMisuse dir rest hp hm hv hw =>
    rw [step_main cfg s hp]; simp only [stepMain, hm, if_neg hv, if_pos hw]
  | loopAdd dir rest hp hm hv hw hr =>
    rw [step_main cfg s hp]; simp only [stepMain, hm, if_neg hv, if_neg hw, if_pos hr]
  | addRelease dir rest hp hm hv hw hr =>
    rw [step_main cfg s hp]; simp only [stepMain, hm, if_neg hv, if_neg hw, if_neg hr]
  | acquire dir rest hp hm hs =>
    rw [step_main cfg s hp]; simp only [stepMain, hm, if_pos hs]
  | spawn dir rest hp hm => rw [step_main cfg s hp]; simp only [stepMain, hm]
  | wait hp hc hw => rw [step_closer cfg s hp]; simp only [stepCloser, hc, if_pos hw]
  | park hp hc hw => rw [step_closer cfg s hp]; simp only [stepCloser, hc, if_neg hw]
  | wakePanic hp hc hs hw =>
    rw [step_closer cfg s hp]; simp only [stepCloser, hc, if_pos hs, if_pos hw]
  | wake hp hc hs hw =>
    rw [step_closer cfg s hp]; simp only [stepCloser, hc, if_pos hs, if_neg hw]
  | closePanic hp hc hcl => rw [step_closer cfg s hp]; simp [stepCloser, hc, hcl]
  | close hp hc hcl => rw [step_closer cfg s hp]; simp [stepCloser, hc, hcl]
  | call i w hp hw hpc => rw [step_worker cfg s i hp]; simp only [stepWorker, hw, hpc]
  | sendPanic i w r hp hw hpc hcl =>
    rw [step_worker cfg s i hp]; simp [stepWorker, hw, hpc, hcl]
  | release i w p hp hw hpc hs =>
    rw [step_worker cfg s i hp]; simp only [stepWorker, hw, hpc, if_pos hs]
  | doneNegative i w p hp hw hpc hv =>
    rw [step_worker cfg s i hp]; simp only [stepWorker, hw, hpc, if_pos hv]
  | done i w p hp hw hpc hv hr =>
    rw [step_worker cfg s i hp]; simp only [stepWorker, hw, hpc, if_neg hv, if_pos hr]
  | doneZero i w p hp hw hpc hv hr =>
    rw [step_worker cfg s i hp]; simp only [stepWorker, hw, hpc, if_neg hv, if_neg hr]
  | notifyPanic i w p n hp hw hpc hc =>
    rw [step_worker cfg s i hp]; simp only [stepWorker, hw, hpc, if_pos hc]
  | notify i w p n hp hw hpc hc =>
    rw [step_worker cfg s i hp]; simp only [stepWorker, hw, hpc, if_neg hc]
  | deliver i w r hp hw hpc hcl hr =>
    rw [step_deliver cfg s i hp]; simp [stepDeliver, hw, hpc, hcl, hr]
  | recvClosed hp hcl hr =>
    rw [step_recvClosed cfg s hp]; simp [stepRecvClosed, hcl, hr]

end fetcher

namespace fetcher

theorem countP_set_getElem? {α : Type} (p : α → Bool) (l : List α) (i : Nat) (a b : α)
    (h : l[i]? = some a) :
    (l.set i b).countP p + (if p a then 1 else 0) = l.countP p + (if p b then 1 else 0) := by
  induction l generalizing i with
  | nil => simp at h
  | cons x l ih =>
    cases i with
    | zero =>
      simp only [List.getElem?_cons_zero, Option.some.injEq] at h
      subst h
      simp only [List.set_cons_zero, List.countP_cons]
      omega
    | succ j =>
      simp only [List.getElem?_cons_succ] at h
      have := ih j h
      simp only [List.set_cons_succ, List.countP_cons]
      omega

theorem countP_set_same {α : Type} (p : α → Bool) (l : List α) (i : Nat) (a b : α)
    (h : l[i]? = some a) (hab : p b = p a) : (l.set i b).countP p = l.countP p := by
  have := countP_set_getElem? p l i a b h
  rw [hab] at this
  omega

theorem countP_set_drop {α : Type} (p : α → Bool) (l : List α) (i : Nat) (a b : α)
    (h : l[i]? = some a) (ha : p a = true) (hb : p b = false) :
    (l.set i b).countP p + 1 = l.countP p := by
  have := countP_set_getElem? p l i a b h
  rw [ha, hb] at this
  simpa using this

theorem countP_set_gain {α : Type} (p : α → Bool) (l : List α) (i : Nat) (a b : α)
    (h : l[i]? = some a) (ha : p a = false) (hb : p b = true) :
    (l.set i b).countP p = l.countP p + 1 := by
  have := countP_set_getElem? p l i a b h
  rw [ha, hb] at this
  simpa using this

theorem countP_pos_of_getElem? {α : Type} (p : α → Bool) (l : List α) (i : Nat) (a : α)
    (h : l[i]? = some a) (ha : p a = true) : 0 < l.countP p := by
  rw [List.countP_pos_iff]
  exact ⟨a, List.getElem?_mem h, ha⟩

theorem PermitInv_step (cfg : Config) (s : State) (e : Event) (t : State)
    (hinv : PermitInv cfg s) (h : Step cfg s e t) : PermitInv cfg t := by
  obtain ⟨h1, h2⟩ := hinv
  unfold PermitInv State.holders State.pendingPermit at *
  cases h with
  | mkdirFail err hp hm he => simp_all
  | mkdirOk hp hm he => simp_all
  | closeResultsPanic hp hm hc => simp_all
  | closeResults hp hm hc => simp_all
  | goCloser hp hm => simp_all
  | loopEnd hp hm => simp_all
  | addNegative dir rest hp hm hv => simp_all
  | addMisuse dir rest hp hm hv hw => simp_all
  | loopAdd dir rest hp hm hv hw hr => simp_all
  | addRelease dir rest hp hm hv hw hr => simp_all
  | acquire dir rest hp hm hs =>
    simp only [hm] at h1 ⊢
    constructor <;> omega
  | spawn dir rest hp hm =>
    simp only [hm, List.countP_append, List.countP_singleton, WorkerPC.holdsPermit] at h1 ⊢
    simp only [if_true] at h1 ⊢
    constructor <;> omega
  | wait hp hc hw => exact ⟨h1, h2⟩
  | park hp hc hw => exact ⟨h1, h2⟩
  | wakePanic hp hc hs hw => exact ⟨h1, h2⟩
  | wake hp hc hs hw => exact ⟨h1, h2⟩
  | closePanic hp hc hcl => exact ⟨h1, h2⟩
  | close hp hc hcl => exact ⟨h1, h2⟩
  | call i w hp hw hpc =>
    have := countP_set_same (fun w : Worker => w.pc.holdsPermit) s.workers i w
      { w with pc := .send (downloadDirectory cfg.dm (cfg.world i) w.dir).1 } hw
      (by simp [hpc, WorkerPC.holdsPermit])
    simp only [this]
    exact ⟨h1, h2⟩
  | sendPanic i w r hp hw hpc hcl =>
    have := countP_set_same (fun w : Worker => w.pc.holdsPermit) s.workers i w
      { w with pc := .release true } hw (by simp [hpc, WorkerPC.holdsPermit])
    simp only [this]
    exact ⟨h1, h2⟩
  | release i w p hp hw hpc hs =>
    have := countP_set_drop (fun w : Worker => w.pc.holdsPermit) s.workers i w
      { w with pc := .done p } hw (by simp [hpc, WorkerPC.holdsPermit])
      (by simp [WorkerPC.holdsPermit])
    simp only at this ⊢
    constructor <;> omega
  | doneNegative i w p hp hw hpc hv =>
    have := countP_set_same (fun w : Worker => w.pc.holdsPermit) s.workers i w
      { w with pc := .exited } hw (by simp [hpc, WorkerPC.holdsPermit])
    simp only [this]
    exact ⟨h1, h2⟩
  | done i w p hp hw hpc hv hr =>
    have := countP_set_same (fun w : Worker => w.pc.holdsPermit) s.workers i w
      { w with pc := .exited } hw (by simp [hpc, WorkerPC.holdsPermit])
    simp only [this]
    exact ⟨h1, h2⟩
  | doneZero i w p hp hw hpc hv hr =>
    have := countP_set_same (fun w : Worker => w.pc.holdsPermit) s.workers i w
      { w with pc := .notify p s.waiters } hw (by simp [hpc, WorkerPC.holdsPermit])
    simp only [this]
    exact ⟨h1, h2⟩
  | notifyPanic i w p n hp hw hpc hc => exact ⟨h1, h2⟩
  | notify i w p n hp hw hpc hc =>
    have := countP_set_same (fun w : Worker => w.pc.holdsPermit) s.workers i w
      { w with pc := .exited } hw (by simp [hpc, WorkerPC.holdsPermit])
    simp only [this]
    exact ⟨h1, h2⟩
  | deliver i w r hp hw hpc hcl hr =>
    have := countP_set_same (fun w : Worker => w.pc.holdsPermit) s.workers i w
      { w with pc := .release false } hw (by simp [hpc, WorkerPC.holdsPermit])
    simp only [this]
    exact ⟨h1, h2⟩
  | recvClosed hp hcl hr => exact ⟨h1, h2⟩

theorem PermitInv_init (cfg : Config) : PermitInv cfg State.init := by
  simp [PermitInv, State.init, State.holders, State.pendingPermit]

/-- C4. In every state that `StartDownloads` can reach, the runs that hold a permit are at
most `Concurrency`: the buffer of `sem` holds exactly one permit per run that has started
and not yet released, plus the one acquired for the run about to be started, and never
more than `Concurrency` permits. -/
theorem StartDownloads_permits (cfg : Config) (sched : List Event) (s : State)
    (hrun : StartDownloads cfg sched = some s) :
    s.holders ≤ cfg.dm.Concurrency ∧
    s.sem = s.holders + s.pendingPermit ∧
    s.sem ≤ cfg.dm.Concurrency := by
  have h := execFrom_invariant cfg (PermitInv cfg)
    (fun s e t hs hst => PermitInv_step cfg s e t hs (step_sound cfg s e t hst))
    sched State.init s (PermitInv_init cfg) hrun
  obtain ⟨h1, h2⟩ := h
  exact ⟨by omega, h1, h2⟩

end fetcher

namespace fetcher

theorem failed_step0 (cfg : Config) (err : GoError) (hmk : cfg.mkdirAll = some err)
    (e : Event) (t : State) (h : step cfg State.init e = some t) : t = failed1 := by
  have hs := step_sound cfg _ e t h
  generalize hs0 : State.init = s0 at hs
  cases hs <;> subst hs0 <;> simp_all [State.init, failed1]

theorem failed_step1 (cfg : Config) (e : Event) (t : State)
    (h : step cfg failed1 e = some t) : t = failed2 := by
  have hs := step_sound cfg _ e t h
  generalize hs0 : failed1 = s0 at hs
  cases hs <;> subst hs0 <;> simp_all [State.init, failed1, failed2]

theorem failed_step2 (cfg : Config) (e : Event) (t : State)
    (h : step cfg failed2 e = some t) : t = failed3 := by
  have hs := step_sound cfg _ e t h
  generalize hs0 : failed2 = s0 at hs
  cases hs <;> subst hs0 <;> simp_all [State.init, failed2, failed3]

theorem failed_step3 (cfg : Config) (e : Event) : step cfg failed3 e = none := by
  cases h : step cfg failed3 e with
  | none => rfl
  | some t =>
    exfalso
    have hs := step_sound cfg _ e t h
    generalize hs0 : failed3 = s0 at hs
    cases hs <;> subst hs0 <;> simp_all [State.init, failed3, receiverReady]

/-- C10. When creating the output root directory fails, the first two steps of
`StartDownloads` close `Results` and return; in every state that can be reached no download
goroutine and no closing goroutine has been started and nothing has been received, and
after two steps `Results` is closed. -/
theorem StartDownloads_mkdir_failure (cfg : Config) (err : GoError) (sched : List Event)
    (s : State) (hmk : cfg.mkdirAll = some err) (hrun : StartDownloads cfg sched = some s) :
    StartDownloads cfg [.main, .main]
      = some { State.init with closed := true, main := .returned } ∧
    s.workers = [] ∧ s.received = [] ∧ s.closer = .notStarted ∧ s.panic = none ∧
    (2 ≤ sched.length → s.closed = true ∧ s.main = .returned) := by
  refine ⟨by simp [StartDownloads, execFrom, step, stepMain, State.init, hmk], ?_⟩
  unfold StartDownloads at hrun
  match sched, hrun with
  | [], hrun =>
    simp only [execFrom, Option.some.injEq] at hrun
    subst hrun
    simp [State.init]
  | [e1], hrun =>
    simp only [execFrom] at hrun
    cases h1 : step cfg State.init e1 with
    | none => simp [h1] at hrun
    | some t1 =>
      have := failed_step0 cfg err hmk e1 t1 h1
      subst this
      simp only [h1, Option.some.injEq] at hrun
      subst hrun
      simp [failed1, State.init]
  | [e1, e2], hrun =>
    simp only [execFrom] at hrun
    cases h1 : step cfg State.init e1 with
    | none => simp [h1] at hrun
    | some t1 =>
      have := failed_step0 cfg err hmk e1 t1 h1
      subst this
      simp only [h1] at hrun
      cases h2 : step cfg failed1 e2 with
      | none => simp [h2] at hrun
      | some t2 =>
        have := failed_step1 cfg e2 t2 h2
        subst this
        simp only [h2, Option.some.injEq] at hrun
        subst hrun
        simp [failed2, State.init]
  | [e1, e2, e3], hrun =>
    simp only [execFrom] at hrun
    cases h1 : step cfg State.init e1 with
    | none => simp [h1] at hrun
    | some t1 =>
      have := failed_step0 cfg err hmk e1 t1 h1
      subst this
      simp only [h1] at hrun
      cases h2 : step cfg failed1 e2 with
      | none => simp [h2] at hrun
      | some t2 =>
        have := failed_step1 cfg e2 t2 h2
        subst this
        simp only [h2] at hrun
        cases h3 : step cfg failed2 e3 with
        | none => simp [h3] at hrun
        | some t3 =>
          have := failed_step2 cfg e3 t3 h3
          subst this
          simp only [h3, Option.some.injEq] at hrun
          subst hrun
          simp [failed3, State.init]
  | e1 :: e2 :: e3 :: e4 :: es, hrun =>
    exfalso
    simp only [execFrom] at hrun
    cases h1 : step cfg State.init e1 with
    | none => simp [h1] at hrun
    | some t1 =>
      have := failed_step0 cfg err hmk e1 t1 h1
      subst this
      simp only [h1] at hrun
      cases h2 : step cfg failed1 e2 with
      | none => simp [h2] at hrun
      | some t2 =>
        have := failed_step1 cfg e2 t2 h2
        subst this
        simp only [h2] at hrun
        cases h3 : step cfg failed2 e3 with
        | none => simp [h3] at hrun
        | some t3 =>
          have := failed_step2 cfg e3 t3 h3
          subst this
          simp only [h3, failed_step3] at hrun
          simp at hrun

end fetcher

namespace fetcher

theorem map_set_same {α β : Type} (f : α → β) (l : List α) (i : Nat) (a b : α)
    (h : l[i]? = some a) (hab : f b = f a) : (l.set i b).map f = l.map f := by
  induction l generalizing i with
  | nil => simp
  | cons x l ih =>
    cases i with
    | zero =>
      simp only [List.getElem?_cons_zero, Option.some.injEq] at h
      subst h
      simp [hab]
    | succ j =>
      simp only [List.getElem?_cons_succ] at h
      simp [ih j h]

theorem Sched_init (cfg : Config) : Sched cfg State.init := by
  constructor <;> simp [State.init, MainPC.todo, State.pendingAdd]

theorem Sched_set (cfg : Config) (s : State) (i : Nat) (w : Worker) (pc : WorkerPC)
    (hw : s.workers[i]? = some w)
    (h2 : s.workers.map (fun w => w.dir) ++ s.main.todo cfg.directories = cfg.directories) :
    (s.workers.set i { w with pc := pc }).map (fun w => w.dir)
      ++ s.main.todo cfg.directories = cfg.directories := by
  have hm := map_set_same (fun w : Worker => w.dir) s.workers i w { w with pc := pc } hw rfl
  rw [hm]
  exact h2

theorem Sched_step (cfg : Config) (hmk : cfg.mkdirAll = none) (s : State) (e : Event)
    (t : State) (hinv : Sched cfg s) (h : Step cfg s e t) : Sched cfg t := by
  obtain ⟨h1, h2, h3, h4⟩ := hinv
  cases h with
  | mkdirFail err hp hm he => simp [hmk] at he
  | mkdirOk hp hm he =>
    constructor <;> simp_all [MainPC.todo, State.pendingAdd]
  | closeResultsPanic hp hm hc => exact absurd hm h1
  | closeResults hp hm hc => exact absurd hm h1
  | goCloser hp hm =>
    constructor <;> simp_all [MainPC.todo, State.pendingAdd]
  | loopEnd hp hm =>
    constructor <;> simp_all [MainPC.todo, State.pendingAdd]
  | addNegative dir rest hp hm hv =>
    refine ⟨h1, h2, ?_, h4⟩
    intro hp2
    simp at hp2
  | addMisuse dir rest hp hm hv hw =>
    refine ⟨h1, h2, ?_, h4⟩
    intro hp2
    simp at hp2
  | loopAdd dir rest hp hm hv hw hr =>
    have h3 := h3 hp
    constructor
    · simp
    · simpa [MainPC.todo, hm] using h2
    · intro _
      simp only [State.pendingAdd, hm] at h3 ⊢
      omega
    · simp_all
  | addRelease dir rest hp hm hv hw hr =>
    exfalso
    have h3 := h3 hp
    apply hr
    left
    omega
  | acquire dir rest hp hm hs =>
    have h3 := h3 hp
    constructor
    · simp
    · simpa [MainPC.todo, hm] using h2
    · intro _
      simpa [State.pendingAdd, hm] using h3
    · simp_all
  | spawn dir rest hp hm =>
    have h3 := h3 hp
    constructor
    · simp
    · simpa [MainPC.todo, hm] using h2
    · intro _
      simp only [State.pendingAdd, hm, List.countP_append, List.countP_singleton,
        WorkerPC.live] at h3 ⊢
      simp only [if_true] at h3 ⊢
      omega
    · simp_all
  | wait hp hc hw =>
    refine ⟨h1, h2, h3, ?_⟩
    simp_all
  | park hp hc hw =>
    refine ⟨h1, h2, h3, ?_⟩
    simp_all
  | wakePanic hp hc hs hw =>
    refine ⟨h1, h2, ?_, h4⟩
    intro hp2
    simp at hp2
  | wake hp hc hs hw =>
    refine ⟨h1, h2, h3, ?_⟩
    simp_all
  | closePanic hp hc hcl =>
    refine ⟨h1, h2, ?_, h4⟩
    intro hp2
    simp at hp2
  | close hp hc hcl =>
    refine ⟨h1, h2, h3, ?_⟩
    simp_all
  | call i w hp hw hpc =>
    refine ⟨h1, Sched_set cfg s i w _ hw h2, ?_, h4⟩
    intro _
    have := countP_set_same (fun w : Worker => w.pc.live) s.workers i w
      { w with pc := .send (downloadDirectory cfg.dm (cfg.world i) w.dir).1 } hw
      (by simp [hpc, WorkerPC.live])
    simp only [State.pendingAdd] at h3 ⊢
    simp only [this]
    exact h3 hp
  | sendPanic i w r hp hw hpc hcl =>
    refine ⟨h1, Sched_set cfg s i w _ hw h2, ?_, h4⟩
    intro _
    have := countP_set_same (fun w : Worker => w.pc.live) s.workers i w
      { w with pc := .release true } hw (by simp [hpc, WorkerPC.live])
    simp only [State.pendingAdd] at h3 ⊢
    simp only [this]
    exact h3 hp
  | release i w p hp hw hpc hs =>
    refine ⟨h1, Sched_set cfg s i w _ hw h2, ?_, h4⟩
    intro _
    have := countP_set_same (fun w : Worker => w.pc.live) s.workers i w
      { w with pc := .done p } hw (by simp [hpc, WorkerPC.live])
    simp only [State.pendingAdd] at h3 ⊢
    simp only [this]
    exact h3 hp
  | doneNegative i w p hp hw hpc hv =>
    refine ⟨h1, Sched_set cfg s i w _ hw h2, ?_, h4⟩
    intro hp2
    simp at hp2
  | done i w p hp hw hpc hv hr =>
    refine ⟨h1, Sched_set cfg s i w _ hw h2, ?_, h4⟩
    intro _
    have := countP_set_drop (fun w : Worker => w.pc.live) s.workers i w
      { w with pc := .exited } hw (by simp [hpc, WorkerPC.live]) (by simp [WorkerPC.live])
    have h3 := h3 hp
    simp only [State.pendingAdd] at h3 ⊢
    omega
  | doneZero i w p hp hw hpc hv hr =>
    refine ⟨h1, Sched_set cfg s i w _ hw h2, ?_, h4⟩
    intro _
    have := countP_set_drop (fun w : Worker => w.pc.live) s.workers i w
      { w with pc := .notify p s.waiters } hw (by simp [hpc, WorkerPC.live])
      (by simp [WorkerPC.live])
    have h3 := h3 hp
    simp only [State.pendingAdd] at h3 ⊢
    omega
  | notifyPanic i w p n hp hw hpc hc =>
    refine ⟨h1, h2, ?_, h4⟩
    intro hp2
    simp at hp2
  | notify i w p n hp hw hpc hc =>
    refine ⟨h1, Sched_set cfg s i w _ hw h2, ?_, h4⟩
    intro _
    have := countP_set_same (fun w : Worker => w.pc.live) s.workers i w
      { w with pc := .exited } hw (by simp [hpc, WorkerPC.live])
    simp only [State.pendingAdd] at h3 ⊢
    simp only [this]
    exact h3 hp
  | deliver i w r hp hw hpc hcl hr =>
    refine ⟨h1, Sched_set cfg s i w _ hw h2, ?_, h4⟩
    intro _
    have := countP_set_same (fun w : Worker => w.pc.live) s.workers i w
      { w with pc := .release false } hw (by simp [hpc, WorkerPC.live])
    simp only [State.pendingAdd] at h3 ⊢
    simp only [this]
    exact h3 hp
  | recvClosed hp hcl hr => exact ⟨h1, h2, h3, h4⟩

end fetcher

namespace fetcher

theorem sum_map_set {α : Type} (f : α → Nat) (l : List α) (i : Nat) (a b : α) (x y : Nat)
    (h : l[i]? = some a) (ha : f a = x) (hb : f b = y) :
    ((l.set i b).map f).sum + x = (l.map f).sum + y := by
  subst ha hb
  induction l generalizing i with
  | nil => simp at h
  | cons x l ih =>
    cases i with
    | zero =>
      simp only [List.getElem?_cons_zero, Option.some.injEq] at h
      subst h
      simp only [List.set_cons_zero, List.map_cons, List.sum_cons]
      omega
    | succ j =>
      simp only [List.getElem?_cons_succ] at h
      have := ih j h
      simp only [List.set_cons_succ, List.map_cons, List.sum_cons]
      omega

theorem panic_term_le (p : Option Panic) : (if p.isSome then 0 else 1) ≤ 1 := by
  split <;> omega

theorem rank_step (cfg : Config) (s : State) (e : Event) (t : State)
    (h : Step cfg s e t) : t.rank cfg + 1 ≤ s.rank cfg := by
  cases h with
  | mkdirFail err hp hm he =>
    simp only [State.rank, hm, hp, MainPC.rank]
    omega
  | mkdirOk hp hm he =>
    simp only [State.rank, hm, hp]
    omega
  | closeResultsPanic hp hm hc => simp [State.rank, hm, hp]
  | closeResults hp hm hc =>
    simp only [State.rank, hm, hp, MainPC.rank]
    omega
  | goCloser hp hm =>
    simp only [State.rank, hm, hp, MainPC.rank, CloserPC.rank]
    omega
  | loopEnd hp hm =>
    simp only [State.rank, hm, hp, MainPC.rank]
    omega
  | addNegative dir rest hp hm hv => simp [State.rank, hm, hp]
  | addMisuse dir rest hp hm hv hw => simp [State.rank, hm, hp]
  | loopAdd dir rest hp hm hv hw hr =>
    simp only [State.rank, hm, hp, MainPC.rank, List.length_cons]
    omega
  | addRelease dir rest hp hm hv hw hr =>
    simp only [State.rank, hm, hp, MainPC.rank, List.length_cons]
    omega
  | acquire dir rest hp hm hs =>
    simp only [State.rank, hm, hp, MainPC.rank]
    omega
  | spawn dir rest hp hm =>
    simp only [State.rank, hm, hp, MainPC.rank, List.map_append, List.sum_append, List.map_cons,
      List.map_nil, List.sum_cons, List.sum_nil, WorkerPC.rank]
    omega
  | wait hp hc hw =>
    simp only [State.rank, hc, hp, CloserPC.rank]
    omega
  | park hp hc hw =>
    simp only [State.rank, hc, hp, CloserPC.rank]
    omega
  | wakePanic hp hc hs hw => simp [State.rank, hc, hp]
  | wake hp hc hs hw =>
    simp only [State.rank, hc, hp, CloserPC.rank]
    omega
  | closePanic hp hc hcl => simp [State.rank, hc, hp]
  | close hp hc hcl =>
    simp only [State.rank, hc, hp, CloserPC.rank]
    omega
  | call i w hp hw hpc =>
    have := sum_map_set (fun w : Worker => w.pc.rank) s.workers i w
      { w with pc := .send (downloadDirectory cfg.dm (cfg.world i) w.dir).1 } 5 4 hw
      (by simp [hpc, WorkerPC.rank]) (by simp [WorkerPC.rank])
    simp only [State.rank]
    omega
  | sendPanic i w r hp hw hpc hcl =>
    have := sum_map_set (fun w : Worker => w.pc.rank) s.workers i w
      { w with pc := .release true } 4 3 hw
      (by simp [hpc, WorkerPC.rank]) (by simp [WorkerPC.rank])
    simp only [State.rank]
    omega
  | release i w p hp hw hpc hs =>
    have := sum_map_set (fun w : Worker => w.pc.rank) s.workers i w
      { w with pc := .done p } 3 2 hw
      (by simp [hpc, WorkerPC.rank]) (by simp [WorkerPC.rank])
    simp only [State.rank]
    omega
  | doneNegative i w p hp hw hpc hv =>
    have := sum_map_set (fun w : Worker => w.pc.rank) s.workers i w
      { w with pc := .exited } 2 0 hw
      (by simp [hpc, WorkerPC.rank]) (by simp [WorkerPC.rank])
    simp only [State.rank, hp, Option.isSome_none, Option.isSome_some, Bool.false_eq_true,
      if_false, if_true]
    omega
  | done i w p hp hw hpc hv hr =>
    have := sum_map_set (fun w : Worker => w.pc.rank) s.workers i w
      { w with pc := .exited } 2 0 hw
      (by simp [hpc, WorkerPC.rank]) (by simp [WorkerPC.rank])
    have hle := panic_term_le (if p = true then some Panic.sendOnClosedChannel else none)
    simp only [State.rank, hp, Option.isSome_none, Bool.false_eq_true, if_false]
    omega
  | doneZero i w p hp hw hpc hv hr =>
    have := sum_map_set (fun w : Worker => w.pc.rank) s.workers i w
      { w with pc := .notify p s.waiters } 2 1 hw
      (by simp [hpc, WorkerPC.rank]) (by simp [WorkerPC.rank])
    simp only [State.rank]
    omega
  | notifyPanic i w p n hp hw hpc hc => simp [State.rank, hp]
  | notify i w p n hp hw hpc hc =>
    have := sum_map_set (fun w : Worker => w.pc.rank) s.workers i w
      { w with pc := .exited } 1 0 hw
      (by simp [hpc, WorkerPC.rank]) (by simp [WorkerPC.rank])
    have hle := panic_term_le (if p = true then some Panic.sendOnClosedChannel else none)
    simp only [State.rank, hp, Option.isSome_none, Bool.false_eq_true, if_false]
    omega
  | deliver i w r hp hw hpc hcl hr =>
    have := sum_map_set (fun w : Worker => w.pc.rank) s.workers i w
      { w with pc := .release false } 4 3 hw
      (by simp [hpc, WorkerPC.rank]) (by simp [WorkerPC.rank])
    simp only [State.rank]
    omega
  | recvClosed hp hcl hr =>
    have hd : s.drained = false := by
      simp only [receiverReady, Bool.and_eq_true, Bool.not_eq_true'] at hr
      exact hr.1
    simp only [State.rank, hd, Bool.false_eq_true, if_false, if_true]
    omega

theorem execFrom_rank (cfg : Config) :
    ∀ (sched : List Event) (s t : State), execFrom cfg s sched = some t →
      t.rank cfg + sched.length ≤ s.rank cfg := by
  intro sched
  induction sched with
  | nil =>
    intro s t h
    simp only [execFrom, Option.some.injEq] at h
    subst h
    simp
  | cons e es ih =>
    intro s t h
    rw [execFrom] at h
    cases hst : step cfg s e with
    | none => rw [hst] at h; simp at h
    | some u =>
      rw [hst] at h
      have h1 := rank_step cfg s e u (step_sound cfg s e u hst)
      have h2 := ih u t h
      simp only [List.length_cons]
      omega

theorem rank_init (cfg : Config) : State.init.rank cfg = 8 * cfg.directories.length + 8 := by
  simp [State.rank, State.init, CloserPC.rank]

end fetcher

namespace fetcher

theorem downloadDirectory_Directory (dm : DownloadManager) (w : World) (dir : models.Directory) :
    (downloadDirectory dm w dir).1.Directory = dir := by
  unfold downloadDirectory
  repeat' split
  all_goals rfl

theorem filter_map_set_same {α β : Type} (p : α → Bool) (f : α → β) (l : List α) (i : Nat)
    (a b : α) (h : l[i]? = some a) (hp : p b = p a) (hf : f b = f a) :
    ((l.set i b).filter p).map f = (l.filter p).map f := by
  induction l generalizing i with
  | nil => simp
  | cons x l ih =>
    cases i with
    | zero =>
      simp only [List.getElem?_cons_zero, Option.some.injEq] at h
      subst h
      simp only [List.set_cons_zero, List.filter_cons, hp]
      split <;> simp [hf]
    | succ j =>
      simp only [List.getElem?_cons_succ] at h
      simp only [List.set_cons_succ, List.filter_cons]
      split <;> simp [ih j h]

theorem filter_map_set_gain {α β : Type} (p : α → Bool) (f : α → β) (l : List α) (i : Nat)
    (a b : α) (h : l[i]? = some a) (ha : p a = false) (hb : p b = true) :
    (((l.set i b).filter p).map f).Perm (f b :: (l.filter p).map f) := by
  induction l generalizing i with
  | nil => simp at h
  | cons x l ih =>
    cases i with
    | zero =>
      simp only [List.getElem?_cons_zero, Option.some.injEq] at h
      subst h
      simp [List.filter_cons, ha, hb]
    | succ j =>
      simp only [List.getElem?_cons_succ] at h
      simp only [List.set_cons_succ, List.filter_cons]
      split
      · simp only [List.map_cons]
        exact ((ih j h).cons (f x)).trans (List.Perm.swap _ _ _)
      · exact ih j h

theorem not_of_countP_eq_zero {α : Type} (p : α → Bool) (l : List α) (i : Nat) (a : α)
    (h : l[i]? = some a) (hz : l.countP p = 0) : p a = false := by
  cases hpa : p a with
  | false => rfl
  | true =>
    have := countP_pos_of_getElem? p l i a h hpa
    omega

theorem execFrom_invariant_guarded (cfg : Config) (P : State → Prop)
    (hstep : ∀ s e t, P s →
      (e = .closer → s.closer = .wait → s.wg = 0 → s.main = .returned) →
      step cfg s e = some t → P t) :
    ∀ (sched : List Event) (s t : State), P s → waitsForReturn cfg s sched = true →
      execFrom cfg s sched = some t → P t := by
  intro sched
  induction sched with
  | nil =>
    intro s t hs _ h
    simp only [execFrom, Option.some.injEq] at h
    exact h ▸ hs
  | cons e es ih =>
    intro s t hs hw h
    rw [execFrom] at h
    rw [waitsForReturn] at hw
    cases hst : step cfg s e with
    | none => rw [hst] at h; simp at h
    | some u =>
      rw [hst] at h
      rw [hst] at hw
      simp only [Bool.and_eq_true, Bool.or_eq_true, Bool.not_eq_true', beq_iff_eq] at hw
      refine ih u t (hstep s e u hs ?_ hst) hw.2 h
      intro he hc hz
      rcases hw.1 with h1 | h1
      · have h2 : (e == Event.closer && s.closer == CloserPC.wait && s.wg == 0) = true := by
          simp [he, hc, hz]
        rw [h1] at h2
        simp at h2
      · exact h1

theorem countP_running (l : List Worker) :
    l.countP (fun w => w.pc.running)
      = l.countP (fun w => w.pc.live) + l.countP (fun w => w.pc.notifying) := by
  induction l with
  | nil => simp
  | cons w l ih =>
    simp only [List.countP_cons, ih]
    cases w.pc <;> simp [WorkerPC.running, WorkerPC.live, WorkerPC.notifying] <;> omega

theorem Live_init (cfg : Config) : Live cfg State.init := by
  refine ⟨Sched_init cfg, PermitInv_init cfg, ?_, ?_, ?_, ?_, ?_, ?_, ?_, ?_, ?_, ?_, ?_, ?_, ?_⟩ <;>
    simp [State.init]

end fetcher

namespace fetcher

theorem returned_of_sent (cfg : Config) (s : State) (hinv : Live cfg s) (i : Nat) (w : Worker)
    (hw : s.workers[i]? = some w) (hs : w.pc.sent = true) : s.main = .returned := by
  by_contra hne
  have h0 := hinv.early hne
  have := countP_pos_of_getElem? (fun w : Worker => w.pc.sent) s.workers i w hw hs
  omega

theorem wg_pos_of_live (cfg : Config) (s : State) (hinv : Live cfg s) (i : Nat) (w : Worker)
    (hw : s.workers[i]? = some w) (hl : w.pc.live = true) : 1 ≤ s.wg := by
  have hc := hinv.sched.counter hinv.noPanic
  have := countP_pos_of_getElem? (fun w : Worker => w.pc.live) s.workers i w hw hl
  omega

theorem waiters_le_one (cfg : Config) (s : State) (hinv : Live cfg s) : s.waiters ≤ 1 := by
  by_cases hc : s.closer = .parked
  · have := hinv.token.1 hc
    omega
  · have := (hinv.token.2 hc).1
    omega

theorem not_closing_of_running (cfg : Config) (s : State) (hinv : Live cfg s) (i : Nat)
    (w : Worker) (hw : s.workers[i]? = some w) (hr : w.pc.running = true) :
    ¬ (s.closer = .close ∨ s.closer = .done) := by
  intro hc
  have h0 := (hinv.closing hc).2
  have := countP_pos_of_getElem? (fun w : Worker => w.pc.running) s.workers i w hw hr
  omega

theorem Live_step (cfg : Config) (hmk : cfg.mkdirAll = none)
    (hrecv : cfg.receiver = .afterReturn) (s : State) (e : Event)
    (t : State) (hinv : Live cfg s)
    (hg : e = .closer → s.closer = .wait → s.wg = 0 → s.main = .returned)
    (h : Step cfg s e t) : Live cfg t := by
  have hs := Sched_step cfg hmk s e t hinv.sched h
  have hp := PermitInv_step cfg s e t hinv.permit h
  have hcounter := hinv.sched.counter hinv.noPanic
  have hinv0 := hinv
  obtain ⟨hsch, hper, hnp, hcalm, hearly, htok, hnot, hcnt, hquiet, hpw, hclosing, hci, hdr,
    hlab, hout⟩ := hinv
  cases h with
  | mkdirFail err hp hm he => simp [hmk] at he
  | mkdirOk hp0 hm he =>
    refine ⟨hs, hp, hnp, hcalm, ?_, htok, hnot, hcnt, ?_, hpw, ?_, hci, hdr, hlab, hout⟩
    · intro _
      exact hearly (by simp [hm])
    · intro hq
      have := (hquiet hq).2
      simp [hm] at this
    · intro hc
      have := hsch.closerStarted.mpr (Or.inl hm)
      simp [this] at hc
  | closeResultsPanic hp0 hm hc => exact absurd hm hsch.noFail
  | closeResults hp0 hm hc => exact absurd hm hsch.noFail
  | goCloser hp0 hm =>
    have hns := hsch.closerStarted.mpr (Or.inr hm)
    have htk := htok.2 (by simp [hns])
    refine ⟨hs, hp, hnp, hcalm, ?_, ?_, hnot, hcnt, ?_, hpw, ?_, ?_, hdr, hlab, hout⟩
    · intro _
      exact hearly (by simp [hm])
    · exact ⟨fun hc => by simp at hc, fun _ => htk⟩
    · intro hq
      have := (hquiet hq).2
      simp [hm] at this
    · intro hc
      simp at hc
    · have : s.closed = false := by
        cases hcl : s.closed with
        | false => rfl
        | true => have := hci.mp hcl; simp [hns] at this
      simp [this]
  | loopEnd hp0 hm =>
    refine ⟨hs, hp, hnp, hcalm, ?_, htok, hnot, hcnt, ?_, hpw, ?_, hci, hdr, hlab, hout⟩
    · intro hne
      exact absurd rfl hne
    · intro hq
      exact ⟨(hquiet hq).1, rfl⟩
    · intro hc
      exact ⟨rfl, (hclosing hc).2⟩
  | addNegative dir rest hp0 hm hv =>
    exfalso
    omega
  | addMisuse dir rest hp0 hm hv hw =>
    exfalso
    rcases hpw hw.1 with h1 | h1
    · omega
    · have := (hquiet (Or.inl h1)).2
      simp [hm] at this
  | loopAdd dir rest hp0 hm hv hw hr =>
    refine ⟨hs, hp, hnp, hcalm, ?_, htok, hnot, hcnt, ?_, ?_, ?_, hci, hdr, hlab, hout⟩
    · intro _
      exact hearly (by simp [hm])
    · intro hq
      have := (hquiet hq).2
      simp [hm] at this
    · intro _
      left
      show s.wg + 1 ≠ 0
      omega
    · intro hc
      have := (hclosing hc).1
      simp [hm] at this
  | addRelease dir rest hp0 hm hv hw hr =>
    exfalso
    apply hr
    left
    omega
  | acquire dir rest hp0 hm hsem =>
    refine ⟨hs, hp, hnp, hcalm, ?_, htok, hnot, hcnt, ?_, hpw, ?_, hci, hdr, hlab, hout⟩
    · intro _
      exact hearly (by simp [hm])
    · intro hq
      have := (hquiet hq).2
      simp [hm] at this
    · intro hc
      have := (hclosing hc).1
      simp [hm] at this
  | spawn dir rest hp0 hm =>
    have he0 := hearly (by simp [hm])
    refine ⟨hs, hp, hnp, ?_, ?_, htok, ?_, ?_, ?_, ?_, ?_, hci, hdr, ?_, ?_⟩
    · simpa [List.countP_append, WorkerPC.panicking] using hcalm
    · intro _
      simpa [List.countP_append, WorkerPC.sent] using he0
    · simpa [List.countP_append, WorkerPC.notifying] using hnot
    · simpa [List.countP_append, WorkerPC.miscounted] using hcnt
    · intro hq
      have hq2 : 0 < s.workers.countP (fun w => w.pc.notifying) ∨ 0 < s.sema := by
        simpa [List.countP_append, WorkerPC.notifying] using hq
      have := (hquiet hq2).2
      simp [hm] at this
    · intro hw0
      have := hpw hw0
      simpa [List.countP_append, WorkerPC.notifying] using this
    · intro hc
      have := (hclosing hc).1
      simp [hm] at this
    · simpa [List.countP_append, Worker.mislabelled] using hlab
    · simpa [List.filter_append, WorkerPC.sent] using hout
  | wait hp0 hc hw =>
    have htk := htok.2 (by simp [hc])
    refine ⟨hs, hp, hnp, hcalm, hearly, ?_, hnot, hcnt, hquiet, hpw, ?_, ?_, hdr, hlab, hout⟩
    · exact ⟨fun hc2 => by simp at hc2, fun _ => htk⟩
    · intro _
      refine ⟨hg rfl hc hw, ?_⟩
      show List.countP (fun w : Worker => w.pc.running) s.workers = 0
      rw [countP_running]
      have h1 := htk.1
      omega
    · have : s.closed = false := by
        cases hcl : s.closed with
        | false => rfl
        | true => have := hci.mp hcl; simp [hc] at this
      simp [this]
  | park hp0 hc hw =>
    have htk := htok.2 (by simp [hc])
    refine ⟨hs, hp, hnp, hcalm, hearly, ?_, ?_, hcnt, hquiet, ?_, ?_, ?_, hdr, hlab, hout⟩
    · refine ⟨fun _ => ?_, fun hc2 => by simp at hc2⟩
      show s.waiters + 1 + s.sema = 1
      omega
    · show List.countP (fun w : Worker => w.pc.notifying) s.workers ≤ s.waiters + 1
      omega
    · intro _
      exact Or.inl hw
    · intro hc2
      simp at hc2
    · have : s.closed = false := by
        cases hcl : s.closed with
        | false => rfl
        | true => have := hci.mp hcl; simp [hc] at this
      simp [this]
  | wakePanic hp0 hc hsm hw =>
    exfalso
    have h1 := (hquiet (Or.inr hsm)).1
    have h2 := htok.1 hc
    rcases hw with h3 | h3
    · exact h3 h1
    · omega
  | wake hp0 hc hsm hw =>
    have hq := hquiet (Or.inr hsm)
    have h2 := htok.1 hc
    have hw0 : s.waiters = 0 := by
      by_contra hne
      exact hw (Or.inr hne)
    refine ⟨hs, hp, hnp, hcalm, hearly, ?_, hnot, hcnt, ?_, hpw, ?_, ?_, hdr, hlab, hout⟩
    · refine ⟨fun hc2 => by simp at hc2, fun _ => ⟨hw0, ?_⟩⟩
      show s.sema - 1 = 0
      omega
    · intro _
      exact hq
    · intro _
      refine ⟨hq.2, ?_⟩
      show List.countP (fun w : Worker => w.pc.running) s.workers = 0
      rw [countP_running]
      have := hq.1
      omega
    · have : s.closed = false := by
        cases hcl : s.closed with
        | false => rfl
        | true => have := hci.mp hcl; simp [hc] at this
      simp [this]
  | closePanic hp0 hc hcl =>
    have := hci.mp hcl
    simp [hc] at this
  | close hp0 hc hcl =>
    have htk := htok.2 (by simp [hc])
    refine ⟨hs, hp, hnp, hcalm, hearly, ?_, hnot, hcnt, hquiet, hpw, ?_, ?_, ?_, hlab, hout⟩
    · exact ⟨fun hc2 => by simp at hc2, fun _ => htk⟩
    · intro _
      exact hclosing (Or.inl hc)
    · simp
    · intro _
      rfl
  | call i w hp0 hw hpc =>
    have hcs := fun (p : Worker → Bool)
      (hpp : p { w with pc := .send (downloadDirectory cfg.dm (cfg.world i) w.dir).1 } = p w) =>
      countP_set_same p s.workers i w _ hw hpp
    have h1 := hcs (fun w => w.pc.panicking) (by simp [hpc, WorkerPC.panicking])
    have h2 := hcs (fun w => w.pc.sent) (by simp [hpc, WorkerPC.sent])
    have h3 := hcs (fun w => w.pc.notifying) (by simp [hpc, WorkerPC.notifying])
    have h4 := hcs (fun w => w.pc.miscounted) (by simp [hpc, WorkerPC.miscounted])
    have h5 := hcs (fun w => w.pc.running) (by simp [hpc, WorkerPC.running])
    have h6 := hcs (fun w => w.mislabelled)
      (by simp [hpc, Worker.mislabelled, downloadDirectory_Directory])
    have h7 := filter_map_set_same (fun w : Worker => w.pc.sent) (fun w : Worker => w.dir)
      s.workers i w { w with pc := .send (downloadDirectory cfg.dm (cfg.world i) w.dir).1 } hw
      (by simp [hpc, WorkerPC.sent]) rfl
    refine ⟨hs, hp, hnp, ?_, ?_, htok, ?_, ?_, ?_, ?_, ?_, hci, hdr, ?_, ?_⟩
    · simp only [h1]; exact hcalm
    · simp only [h2]; exact hearly
    · simp only [h3]; exact hnot
    · simp only [h4]; exact hcnt
    · simp only [h3]; exact hquiet
    · simp only [h3]; exact hpw
    · simp only [h5]; exact hclosing
    · simp only [h6]; exact hlab
    · simp only [h7]; exact hout
  | sendPanic i w r hp0 hw hpc hcl =>
    exfalso
    exact not_closing_of_running cfg s hinv0 i w hw (by simp [hpc, WorkerPC.running])
      (Or.inr (hci.mp hcl))
  | release i w p hp0 hw hpc hsem =>
    have hcs := fun (q : Worker → Bool) (hpp : q { w with pc := .done p } = q w) =>
      countP_set_same q s.workers i w _ hw hpp
    have h1 := hcs (fun w => w.pc.panicking) (by simp [hpc, WorkerPC.panicking])
    have h2 := hcs (fun w => w.pc.sent) (by simp [hpc, WorkerPC.sent])
    have h3 := hcs (fun w => w.pc.notifying) (by simp [hpc, WorkerPC.notifying])
    have h4 := hcs (fun w => w.pc.miscounted) (by simp [hpc, WorkerPC.miscounted])
    have h5 := hcs (fun w => w.pc.running) (by simp [hpc, WorkerPC.running])
    have h6 := hcs (fun w => w.mislabelled) (by simp [hpc, Worker.mislabelled])
    have h7 := filter_map_set_same (fun w : Worker => w.pc.sent) (fun w : Worker => w.dir)
      s.workers i w { w with pc := .done p } hw (by simp [hpc, WorkerPC.sent]) rfl
    refine ⟨hs, hp, hnp, ?_, ?_, htok, ?_, ?_, ?_, ?_, ?_, hci, hdr, ?_, ?_⟩
    · simp only [h1]; exact hcalm
    · simp only [h2]; exact hearly
    · simp only [h3]; exact hnot
    · simp only [h4]; exact hcnt
    · simp only [h3]; exact hquiet
    · simp only [h3]; exact hpw
    · simp only [h5]; exact hclosing
    · simp only [h6]; exact hlab
    · simp only [h7]; exact hout
  | doneNegative i w p hp0 hw hpc hv =>
    exfalso
    have := wg_pos_of_live cfg s hinv0 i w hw (by simp [hpc, WorkerPC.live])
    omega
  | done i w p hp0 hw hpc hv hr =>
    have hwg := wg_pos_of_live cfg s hinv0 i w hw (by simp [hpc, WorkerPC.live])
    have hpf : p = false := by
      have := not_of_countP_eq_zero (fun w : Worker => w.pc.panicking) s.workers i w hw hcalm
      simpa [hpc, WorkerPC.panicking] using this
    subst hpf
    have hcs := fun (q : Worker → Bool) (hpp : q { w with pc := .exited } = q w) =>
      countP_set_same q s.workers i w _ hw hpp
    have h1 := hcs (fun w => w.pc.panicking) (by simp [hpc, WorkerPC.panicking])
    have h2 := hcs (fun w => w.pc.sent) (by simp [hpc, WorkerPC.sent])
    have h3 := hcs (fun w => w.pc.notifying) (by simp [hpc, WorkerPC.notifying])
    have h4 := hcs (fun w => w.pc.miscounted) (by simp [hpc, WorkerPC.miscounted])
    have h6 := hcs (fun w => w.mislabelled) (by simp [hpc, Worker.mislabelled])
    have h7 := filter_map_set_same (fun w : Worker => w.pc.sent) (fun w : Worker => w.dir)
      s.workers i w { w with pc := .exited } hw (by simp [hpc, WorkerPC.sent]) rfl
    have hncl := not_closing_of_running cfg s hinv0 i w hw (by simp [hpc, WorkerPC.running])
    refine ⟨hs, hp, ?_, ?_, ?_, htok, ?_, ?_, ?_, ?_, ?_, hci, hdr, ?_, ?_⟩
    · simp
    · simp only [h1]; exact hcalm
    · simp only [h2]; exact hearly
    · simp only [h3]; exact hnot
    · simp only [h4]; exact hcnt
    · simp only [h3]
      intro hq
      have := (hquiet hq).1
      omega
    · simp only [h3]
      intro hw0
      rcases hr with h8 | h8
      · left
        show s.wg - 1 ≠ 0
        omega
      · exact absurd h8 hw0
    · intro hc
      exact absurd hc hncl
    · simp only [h6]; exact hlab
    · simp only [h7]; exact hout
  | doneZero i w p hp0 hw hpc hv hr =>
    have hwg := wg_pos_of_live cfg s hinv0 i w hw (by simp [hpc, WorkerPC.live])
    have hw1 := waiters_le_one cfg s hinv0
    have hwn : s.waiters ≠ 0 := fun h0 => hr (Or.inr h0)
    have hwg1 : s.wg = 1 := by
      have : ¬ (0 < s.wg - 1) := fun h0 => hr (Or.inl h0)
      omega
    have hret := returned_of_sent cfg s hinv0 i w hw (by simp [hpc, WorkerPC.sent])
    have hn0 : s.workers.countP (fun w => w.pc.notifying) = 0 := by
      by_contra hne
      have := (hquiet (Or.inl (by omega))).1
      omega
    have hcs := fun (q : Worker → Bool) (hpp : q { w with pc := .notify p s.waiters } = q w) =>
      countP_set_same q s.workers i w _ hw hpp
    have h1 := hcs (fun w => w.pc.panicking) (by simp [hpc, WorkerPC.panicking])
    have h2 := hcs (fun w => w.pc.sent) (by simp [hpc, WorkerPC.sent])
    have h3 := countP_set_gain (fun w : Worker => w.pc.notifying) s.workers i w
      { w with pc := .notify p s.waiters } hw (by simp [hpc, WorkerPC.notifying])
      (by simp [WorkerPC.notifying])
    have h4 := hcs (fun w => w.pc.miscounted)
      (by
        have : s.waiters = 1 := by omega
        simp [hpc, WorkerPC.miscounted, this])
    have h6 := hcs (fun w => w.mislabelled) (by simp [hpc, Worker.mislabelled])
    have h7 := filter_map_set_same (fun w : Worker => w.pc.sent) (fun w : Worker => w.dir)
      s.workers i w { w with pc := .notify p s.waiters } hw (by simp [hpc, WorkerPC.sent]) rfl
    have hncl := not_closing_of_running cfg s hinv0 i w hw (by simp [hpc, WorkerPC.running])
    refine ⟨hs, hp, hnp, ?_, ?_, htok, ?_, ?_, ?_, ?_, ?_, hci, hdr, ?_, ?_⟩
    · simp only [h1]; exact hcalm
    · simp only [h2]; exact hearly
    · simp only [h3]
      omega
    · simp only [h4]; exact hcnt
    · intro _
      refine ⟨?_, hret⟩
      show s.wg - 1 = 0
      omega
    · intro _
      right
      simp only [h3]
      omega
    · intro hc
      exact absurd hc hncl
    · simp only [h6]; exact hlab
    · simp only [h7]; exact hout
  | notifyPanic i w p n hp0 hw hpc hc =>
    exfalso
    have hpos := countP_pos_of_getElem? (fun w : Worker => w.pc.notifying) s.workers i w hw
      (by simp [hpc, WorkerPC.notifying])
    have h1 := (hquiet (Or.inl hpos)).1
    have hw1 := waiters_le_one cfg s hinv0
    have hn1 : n = 1 := by
      have := not_of_countP_eq_zero (fun w : Worker => w.pc.miscounted) s.workers i w hw hcnt
      simpa [hpc, WorkerPC.miscounted] using this
    rcases hc with h2 | h2
    · exact h2 h1
    · omega
  | notify i w p n hp0 hw hpc hc =>
    have hpos := countP_pos_of_getElem? (fun w : Worker => w.pc.notifying) s.workers i w hw
      (by simp [hpc, WorkerPC.notifying])
    have hq := hquiet (Or.inl hpos)
    have hw1 := waiters_le_one cfg s hinv0
    have hn1 : n = 1 := by
      have := not_of_countP_eq_zero (fun w : Worker => w.pc.miscounted) s.workers i w hw hcnt
      simpa [hpc, WorkerPC.miscounted] using this
    subst hn1
    have hwt : s.waiters = 1 := by omega
    have hpark : s.closer = .parked := by
      by_contra hne
      have := (htok.2 hne).1
      omega
    have hsema : s.sema = 0 := by
      have := htok.1 hpark
      omega
    have hpf : p = false := by
      have := not_of_countP_eq_zero (fun w : Worker => w.pc.panicking) s.workers i w hw hcalm
      simpa [hpc, WorkerPC.panicking] using this
    subst hpf
    have hcs := fun (q : Worker → Bool) (hpp : q { w with pc := .exited } = q w) =>
      countP_set_same q s.workers i w _ hw hpp
    have h1 := hcs (fun w => w.pc.panicking) (by simp [hpc, WorkerPC.panicking])
    have h2 := hcs (fun w => w.pc.sent) (by simp [hpc, WorkerPC.sent])
    have h3 := countP_set_drop (fun w : Worker => w.pc.notifying) s.workers i w
      { w with pc := .exited } hw (by simp [hpc, WorkerPC.notifying])
      (by simp [WorkerPC.notifying])
    have h4 := hcs (fun w => w.pc.miscounted) (by simp [hpc, WorkerPC.miscounted])
    have h6 := hcs (fun w => w.mislabelled) (by simp [hpc, Worker.mislabelled])
    have h7 := filter_map_set_same (fun w : Worker => w.pc.sent) (fun w : Worker => w.dir)
      s.workers i w { w with pc := .exited } hw (by simp [hpc, WorkerPC.sent]) rfl
    refine ⟨hs, hp, ?_, ?_, ?_, ?_, ?_, ?_, ?_, ?_, ?_, hci, hdr, ?_, ?_⟩
    · simp
    · simp only [h1]; exact hcalm
    · simp only [h2]; exact hearly
    · refine ⟨fun _ => ?_, fun hne => absurd hpark hne⟩
      show 0 + (s.sema + 1) = 1
      omega
    · show List.countP (fun w : Worker => w.pc.notifying)
        (s.workers.set i { w with pc := .exited }) ≤ 0
      omega
    · simp only [h4]; exact hcnt
    · intro _
      exact hq
    · intro h0
      exact absurd rfl h0
    · intro hc2
      rcases hc2 with h8 | h8
      · have : s.closer = .close := h8
        simp [hpark] at this
      · have : s.closer = .done := h8
        simp [hpark] at this
    · simp only [h6]; exact hlab
    · simp only [h7]; exact hout
  | deliver i w r hp0 hw hpc hcl hr =>
    have hret : s.main = .returned := by
      simp only [receiverReady, hrecv, Bool.and_eq_true, Bool.or_eq_true, beq_iff_eq] at hr
      rcases hr.2 with h1 | h1
      · simp at h1
      · exact h1
    have hrd : r.Directory = w.dir := by
      have := not_of_countP_eq_zero (fun w : Worker => w.mislabelled) s.workers i w hw hlab
      simpa [hpc, Worker.mislabelled] using this
    have hcs := fun (q : Worker → Bool) (hpp : q { w with pc := .release false } = q w) =>
      countP_set_same q s.workers i w _ hw hpp
    have h1 := hcs (fun w => w.pc.panicking) (by simp [hpc, WorkerPC.panicking])
    have h3 := hcs (fun w => w.pc.notifying) (by simp [hpc, WorkerPC.notifying])
    have h4 := hcs (fun w => w.pc.miscounted) (by simp [hpc, WorkerPC.miscounted])
    have h5 := hcs (fun w => w.pc.running) (by simp [hpc, WorkerPC.running])
    have h6 := hcs (fun w => w.mislabelled) (by simp [hpc, Worker.mislabelled, hrd])
    refine ⟨hs, hp, hnp, ?_, ?_, htok, ?_, ?_, ?_, ?_, ?_, hci, hdr, ?_, ?_⟩
    · simp only [h1]; exact hcalm
    · intro hne
      exact absurd hret hne
    · simp only [h3]; exact hnot
    · simp only [h4]; exact hcnt
    · simp only [h3]; exact hquiet
    · simp only [h3]; exact hpw
    · simp only [h5]; exact hclosing
    · simp only [h6]; exact hlab
    · have := filter_map_set_gain (fun w : Worker => w.pc.sent) (fun w : Worker => w.dir)
        s.workers i w { w with pc := .release false } hw (by simp [hpc, WorkerPC.sent])
        (by simp [WorkerPC.sent])
      simp only [List.map_append, List.map_cons, List.map_nil, hrd]
      refine List.Perm.trans ?_ this.symm
      exact (List.perm_append_comm).trans (by simpa using hout.cons w.dir)
  | recvClosed hp0 hcl hr =>
    refine ⟨hs, hp, hnp, hcalm, hearly, htok, hnot, hcnt, hquiet, hpw, hclosing, hci, ?_,
      hlab, hout⟩
    intro _
    exact hcl

end fetcher

namespace fetcher

theorem stuck_elim (cfg : Config) (s : State) (e : Event) (t : State)
    (hst : s.stuck cfg) (h : Step cfg s e t) : False := by
  have := step_complete cfg s e t h
  rw [hst e] at this
  simp at this

theorem exists_of_countP_pos {α : Type} (p : α → Bool) (l : List α) (h : 0 < l.countP p) :
    ∃ (i : Nat) (a : α), l[i]? = some a ∧ p a = true := by
  obtain ⟨a, ha, hpa⟩ := List.countP_pos_iff.mp h
  obtain ⟨i, hi⟩ := List.mem_iff_getElem?.mp ha
  exact ⟨i, a, hi, hpa⟩

theorem Live_stuck (cfg : Config) (hmk : cfg.mkdirAll = none)
    (hfit : cfg.directories.length ≤ cfg.dm.Concurrency)
    (s : State) (hinv : Live cfg s) (hst : s.stuck cfg) :
    s.closed = true ∧ s.drained = true := by
  have hnp := hinv.noPanic
  have hper := hinv.permit
  have hcounter := hinv.sched.counter hnp
  unfold PermitInv State.holders State.pendingPermit at hper
  cases hmain : s.main with
  | mkdir => exact (stuck_elim cfg s _ _ hst (Step.mkdirOk s hnp hmain hmk)).elim
  | closeResults => exact absurd hmain hinv.sched.noFail
  | goCloser => exact (stuck_elim cfg s _ _ hst (Step.goCloser s hnp hmain)).elim
  | loop rest =>
    cases rest with
    | nil => exact (stuck_elim cfg s _ _ hst (Step.loopEnd s hnp hmain)).elim
    | cons dir rest =>
      exfalso
      by_cases hv : s.wg + 1 < 0
      · exact stuck_elim cfg s _ _ hst (Step.addNegative s dir rest hnp hmain hv)
      · by_cases hw : s.waiters ≠ 0 ∧ s.wg + 1 = 1
        · exact stuck_elim cfg s _ _ hst (Step.addMisuse s dir rest hnp hmain hv hw)
        · by_cases hr : 0 < s.wg + 1 ∨ s.waiters = 0
          · exact stuck_elim cfg s _ _ hst (Step.loopAdd s dir rest hnp hmain hv hw hr)
          · exact stuck_elim cfg s _ _ hst (Step.addRelease s dir rest hnp hmain hv hw hr)
  | spawn dir rest => exact (stuck_elim cfg s _ _ hst (Step.spawn s dir rest hnp hmain)).elim
  | acquire dir rest =>
    exfalso
    by_cases hsem : s.sem < cfg.dm.Concurrency
    · exact stuck_elim cfg s _ _ hst (Step.acquire s dir rest hnp hmain hsem)
    · simp only [hmain] at hper
      have hlen := congrArg List.length hinv.sched.started
      simp only [hmain, MainPC.todo, List.length_append, List.length_map,
        List.length_cons] at hlen
      have := List.countP_le_length (fun w : Worker => w.pc.holdsPermit) (l := s.workers)
      omega
  | returned =>
    simp only [hmain] at hper
    have hdr : s.drained = true → s.closed = true := hinv.drained
    have hrun : s.workers.countP (fun w => w.pc.running) = 0 := by
      by_contra hne
      obtain ⟨i, w, hw, hpw⟩ := exists_of_countP_pos (fun w : Worker => w.pc.running)
        s.workers (by omega)
      have hncl := not_closing_of_running cfg s hinv i w hw hpw
      cases hpc : w.pc with
      | call => exact stuck_elim cfg s _ _ hst (Step.call s i w hnp hw hpc)
      | send r =>
        cases hcl : s.closed with
        | true => exact hncl (Or.inr (hinv.closedIff.mp hcl))
        | false =>
          have hd : s.drained = false := by
            cases hd : s.drained with
            | false => rfl
            | true => have := hdr hd; rw [hcl] at this; simp at this
          exact stuck_elim cfg s _ _ hst (Step.deliver s i w r hnp hw hpc hcl
            (by simp [receiverReady, hd, hmain]))
      | release p =>
        have := countP_pos_of_getElem? (fun w : Worker => w.pc.holdsPermit) s.workers i w hw
          (by simp [hpc, WorkerPC.holdsPermit])
        exact stuck_elim cfg s _ _ hst (Step.release s i w p hnp hw hpc (by omega))
      | done p =>
        by_cases hv : s.wg - 1 < 0
        · exact stuck_elim cfg s _ _ hst (Step.doneNegative s i w p hnp hw hpc hv)
        · by_cases hr : 0 < s.wg - 1 ∨ s.waiters = 0
          · exact stuck_elim cfg s _ _ hst (Step.done s i w p hnp hw hpc hv hr)
          · exact stuck_elim cfg s _ _ hst (Step.doneZero s i w p hnp hw hpc hv hr)
      | notify p n =>
        by_cases hc : s.wg ≠ 0 ∨ s.waiters ≠ n
        · exact stuck_elim cfg s _ _ hst (Step.notifyPanic s i w p n hnp hw hpc hc)
        · exact stuck_elim cfg s _ _ hst (Step.notify s i w p n hnp hw hpc hc)
      | exited => simp [hpc, WorkerPC.running] at hpw
    have hsplit := countP_running s.workers
    have hwg : s.wg = 0 := by
      simp only [State.pendingAdd, hmain] at hcounter
      omega
    have hclosed : s.closed = true := by
      cases hc : s.closer with
      | notStarted =>
        have := hinv.sched.closerStarted.mp hc
        simp [hmain] at this
      | wait => exact (stuck_elim cfg s _ _ hst (Step.wait s hnp hc hwg)).elim
      | parked =>
        exfalso
        have htk := hinv.token.1 hc
        have hsm : 0 < s.sema := by
          by_contra hne
          have hw0 : s.waiters ≠ 0 := by omega
          rcases hinv.pendingWake hw0 with h1 | h1
          · exact h1 hwg
          · omega
        by_cases hw : s.wg ≠ 0 ∨ s.waiters ≠ 0
        · exact stuck_elim cfg s _ _ hst (Step.wakePanic s hnp hc hsm hw)
        · exact stuck_elim cfg s _ _ hst (Step.wake s hnp hc hsm hw)
      | close =>
        cases hcl : s.closed with
        | true => rfl
        | false => exact (stuck_elim cfg s _ _ hst (Step.close s hnp hc hcl)).elim
      | done => exact hinv.closedIff.mpr hc
    refine ⟨hclosed, ?_⟩
    cases hd : s.drained with
    | true => rfl
    | false =>
      exact (stuck_elim cfg s _ _ hst (Step.recvClosed s hnp hclosed
        (by simp [receiverReady, hd, hmain]))).elim

theorem Live_closed (cfg : Config) (s : State) (hinv : Live cfg s) (hcl : s.closed = true) :
    (s.received.map (fun r => r.Directory)).Perm cfg.directories ∧
    ∀ w ∈ s.workers, w.pc = .exited := by
  obtain ⟨hm, hrun⟩ := hinv.closing (Or.inr (hinv.closedIff.mp hcl))
  have hex : ∀ w ∈ s.workers, w.pc = .exited := by
    intro w hw
    have hz := List.countP_eq_zero.mp hrun w hw
    cases hpc : w.pc <;> simp_all [WorkerPC.running]
  have hall : s.workers.filter (fun w => w.pc.sent) = s.workers := by
    rw [List.filter_eq_self]
    intro w hw
    simp [hex w hw, WorkerPC.sent]
  have hstarted := hinv.sched.started
  simp only [hm, MainPC.todo, List.append_nil] at hstarted
  have := hinv.outcomes
  rw [hall, hstarted] at this
  exact ⟨this, hex⟩

theorem Live_received_le (cfg : Config) (s : State) (hinv : Live cfg s) :
    s.received.length ≤ cfg.directories.length := by
  have h1 := hinv.outcomes.length_eq
  have h2 := congrArg List.length hinv.sched.started
  have h3 := List.length_filter_le (fun w : Worker => w.pc.sent) s.workers
  simp only [List.length_map, List.length_append] at h1 h2
  omega

end fetcher

namespace fetcher

theorem Dead_init (cfg : Config) : Dead cfg State.init := by
  refine ⟨Sched_init cfg, PermitInv_init cfg, ?_, ?_⟩ <;> simp [State.init]

theorem holders_eq_length_of_not_sent (l : List Worker)
    (h : l.countP (fun w => w.pc.sent) = 0) :
    l.countP (fun w => w.pc.holdsPermit) = l.length := by
  rw [List.countP_eq_length]
  intro w hw
  have hz := List.countP_eq_zero.mp h w hw
  cases hpc : w.pc <;> simp_all [WorkerPC.holdsPermit, WorkerPC.sent]

theorem Dead_step (cfg : Config) (hmk : cfg.mkdirAll = none)
    (hrecv : cfg.receiver = .afterReturn)
    (hlt : cfg.dm.Concurrency < cfg.directories.length)
    (s : State) (e : Event) (t : State) (hinv : Dead cfg s) (h : Step cfg s e t) :
    Dead cfg t := by
  have hs := Sched_step cfg hmk s e t hinv.sched h
  have hp := PermitInv_step cfg s e t hinv.permit h
  obtain ⟨hsch, hper, hno, hbl⟩ := hinv
  cases h with
  | mkdirFail err hp hm he => simp [hmk] at he
  | mkdirOk hp0 hm he =>
    refine ⟨hs, hp, hno, ?_⟩
    intro hc
    exact ⟨by simp, (hbl hc).2⟩
  | closeResultsPanic hp0 hm hc => exact absurd hm hsch.noFail
  | closeResults hp0 hm hc => exact absurd hm hsch.noFail
  | goCloser hp0 hm =>
    refine ⟨hs, hp, hno, ?_⟩
    intro hc
    exact ⟨by simp, (hbl hc).2⟩
  | loopEnd hp0 hm =>
    refine ⟨hs, hp, hno, ?_⟩
    intro hc
    exfalso
    have hz := (hbl hc).2
    have hh := holders_eq_length_of_not_sent s.workers hz
    have hlen := congrArg List.length hsch.started
    simp only [hm, MainPC.todo, List.length_append, List.length_map, List.length_nil] at hlen
    unfold PermitInv State.holders State.pendingPermit at hper
    simp only [hm] at hper
    omega
  | addNegative dir rest hp0 hm hv =>
    refine ⟨hs, hp, hno, ?_⟩
    intro hc
    exact ⟨by simp [hm], (hbl hc).2⟩
  | addMisuse dir rest hp0 hm hv hw =>
    refine ⟨hs, hp, hno, ?_⟩
    intro hc
    exact ⟨by simp [hm], (hbl hc).2⟩
  | loopAdd dir rest hp0 hm hv hw hr =>
    refine ⟨hs, hp, hno, ?_⟩
    intro hc
    exact ⟨by simp, (hbl hc).2⟩
  | addRelease dir rest hp0 hm hv hw hr =>
    refine ⟨hs, hp, hno, ?_⟩
    intro hc
    exact ⟨by simp, (hbl hc).2⟩
  | acquire dir rest hp0 hm hsem =>
    refine ⟨hs, hp, hno, ?_⟩
    intro hc
    exact ⟨by simp, (hbl hc).2⟩
  | spawn dir rest hp0 hm =>
    refine ⟨hs, hp, hno, ?_⟩
    intro hc
    refine ⟨by simp, ?_⟩
    simpa [List.countP_append, WorkerPC.sent] using (hbl hc).2
  | wait hp0 hc hw => exact ⟨hs, hp, hno, hbl⟩
  | park hp0 hc hw => exact ⟨hs, hp, hno, hbl⟩
  | wakePanic hp0 hc hsm hw => exact ⟨hs, hp, hno, hbl⟩
  | wake hp0 hc hsm hw => exact ⟨hs, hp, hno, hbl⟩
  | closePanic hp0 hc hcl => exact ⟨hs, hp, hno, hbl⟩
  | close hp0 hc hcl =>
    refine ⟨hs, hp, hno, ?_⟩
    intro hc
    simp at hc
  | call i w hp0 hw hpc =>
    refine ⟨hs, hp, hno, ?_⟩
    intro hc
    refine ⟨(hbl hc).1, ?_⟩
    rw [← (hbl hc).2]
    exact countP_set_same (fun w : Worker => w.pc.sent) s.workers i w _ hw
      (by simp [hpc, WorkerPC.sent])
  | sendPanic i w r hp0 hw hpc hcl =>
    refine ⟨hs, hp, hno, ?_⟩
    intro hc
    have : s.closed = false := hc
    rw [hcl] at this
    simp at this
  | release i w p hp0 hw hpc hsem =>
    refine ⟨hs, hp, hno, ?_⟩
    intro hc
    exfalso
    have := countP_pos_of_getElem? (fun w : Worker => w.pc.sent) s.workers i w hw
      (by simp [hpc, WorkerPC.sent])
    have := (hbl hc).2
    omega
  | doneNegative i w p hp0 hw hpc hv =>
    refine ⟨hs, hp, hno, ?_⟩
    intro hc
    exfalso
    have := countP_pos_of_getElem? (fun w : Worker => w.pc.sent) s.workers i w hw
      (by simp [hpc, WorkerPC.sent])
    have := (hbl hc).2
    omega
  | done i w p hp0 hw hpc hv hr =>
    refine ⟨hs, hp, hno, ?_⟩
    intro hc
    exfalso
    have := countP_pos_of_getElem? (fun w : Worker => w.pc.sent) s.workers i w hw
      (by simp [hpc, WorkerPC.sent])
    have := (hbl hc).2
    omega
  | doneZero i w p hp0 hw hpc hv hr =>
    refine ⟨hs, hp, hno, ?_⟩
    intro hc
    exfalso
    have := countP_pos_of_getElem? (fun w : Worker => w.pc.sent) s.workers i w hw
      (by simp [hpc, WorkerPC.sent])
    have := (hbl hc).2
    omega
  | notifyPanic i w p n hp0 hw hpc hc => exact ⟨hs, hp, hno, hbl⟩
  | notify i w p n hp0 hw hpc hc0 =>
    refine ⟨hs, hp, hno, ?_⟩
    intro hc
    exfalso
    have := countP_pos_of_getElem? (fun w : Worker => w.pc.sent) s.workers i w hw
      (by simp [hpc, WorkerPC.sent])
    have := (hbl hc).2
    omega
  | deliver i w r hp0 hw hpc hcl hr =>
    exfalso
    have hm := (hbl hcl).1
    simp only [receiverReady, hrecv, Bool.and_eq_true, Bool.or_eq_true, beq_iff_eq] at hr
    rcases hr.2 with h1 | h1
    · simp at h1
    · exact hm h1
  | recvClosed hp0 hcl hr => exact ⟨hs, hp, hno, hbl⟩

/-- With the receiver of `downloadWithProgressReporting` and more directories than permits,
no outcome is ever received, whatever the scheduler does. -/
theorem StartDownloads_never_received (cfg : Config) (hmk : cfg.mkdirAll = none)
    (hrecv : cfg.receiver = .afterReturn)
    (hlt : cfg.dm.Concurrency < cfg.directories.length)
    (sched : List Event) (s : State) (hrun : StartDownloads cfg sched = some s) :
    s.received = [] :=
  (execFrom_invariant cfg (Dead cfg)
    (fun s e t hs hst => Dead_step cfg hmk hrecv hlt s e t hs (step_sound cfg s e t hst))
    sched State.init s (Dead_init cfg) hrun).nothing

theorem stuck_of_single (cfg : Config) (s : State) (w : Worker)
    (hw : s.workers = [w])
    (hmain : step cfg s .main = none) (hcloser : step cfg s .closer = none)
    (hworker : step cfg s (.worker 0) = none) (hdeliver : step cfg s (.deliver 0) = none)
    (hrecv : step cfg s .recvClosed = none) : s.stuck cfg := by
  intro e
  cases e with
  | main => exact hmain
  | closer => exact hcloser
  | recvClosed => exact hrecv
  | worker i =>
    cases i with
    | zero => exact hworker
    | succ j => simp [step, stepWorker, hw]
  | deliver i =>
    cases i with
    | zero => exact hdeliver
    | succ j => simp [step, stepDeliver, hw]

end fetcher

namespace fetcher

/-- An instance of C4: in the state where the caller waits for the second permit, the one
run that was started holds the only permit. -/
theorem StartDownloads_permits_witness :
    examples.deadlocked.holders ≤ 1 ∧
    examples.deadlocked.sem
      = examples.deadlocked.holders + examples.deadlocked.pendingPermit ∧
    examples.deadlocked.sem ≤ 1 :=
  StartDownloads_permits examples.twoOnOnePermit examples.blockingSchedule examples.deadlocked
    (by decide)

/-- An instance of C10: one collection is submitted and the output root cannot be created. -/
theorem StartDownloads_mkdir_failure_witness :
    StartDownloads examples.rootFails [.main, .main, .recvClosed] = some failed3 ∧
    failed3.workers = [] ∧ failed3.received = [] ∧ failed3.closed = true := by
  have hrun : StartDownloads examples.rootFails [.main, .main, .recvClosed] = some failed3 := by
    decide
  have h := StartDownloads_mkdir_failure examples.rootFails (lit "permission denied")
    [.main, .main, .recvClosed] failed3 rfl hrun
  exact ⟨hrun, h.2.1, h.2.2.1, (h.2.2.2.2.2 (by decide)).1⟩

/-- C3 as amended. When the output root is created, the caller drains `Results` after
`StartDownloads` has returned as `downloadWithProgressReporting` does, the directories are
at most `Concurrency`, and the `wg.Wait()` of the closing goroutine reads a zero counter
only after `StartDownloads` has returned: every run of the system is finite, no panic
occurs (`Results` is closed at most once and never sent to after the close, and `wg` is
not misused), at most one outcome per collection is received, `Results` is closed only
when every download goroutine has ended and the received outcomes are those of the
submitted collections, one each, and a state in which no goroutine can move has `Results`
closed and the receiver's loop ended. -/
theorem StartDownloads_outcomes (cfg : Config) (sched : List Event) (s : State)
    (hmk : cfg.mkdirAll = none)
    (hrecv : cfg.receiver = .afterReturn)
    (hfit : cfg.directories.length ≤ cfg.dm.Concurrency)
    (hwait : waitsForReturn cfg State.init sched = true)
    (hrun : StartDownloads cfg sched = some s) :
    sched.length ≤ 8 * cfg.directories.length + 8 ∧
    s.panic = none ∧
    s.received.length ≤ cfg.directories.length ∧
    (s.closed = true →
      (s.received.map (fun r => r.Directory)).Perm cfg.directories ∧
      s.received.length = cfg.directories.length ∧
      ∀ w ∈ s.workers, w.pc = .exited) ∧
    (s.stuck cfg → s.closed = true ∧ s.drained = true) := by
  have hlive : Live cfg s :=
    execFrom_invariant_guarded cfg (Live cfg)
      (fun s e t hs hg hst =>
        Live_step cfg hmk hrecv s e t hs hg (step_sound cfg s e t hst))
      sched State.init s (Live_init cfg) hwait hrun
  have hrank := execFrom_rank cfg sched State.init s hrun
  rw [rank_init] at hrank
  refine ⟨by omega, hlive.noPanic, Live_received_le cfg s hlive, ?_,
    Live_stuck cfg hmk hfit s hlive⟩
  intro hcl
  have hperm := Live_closed cfg s hlive hcl
  refine ⟨hperm.1, ?_, hperm.2⟩
  have := hperm.1.length_eq
  simpa using this

/-- An instance of the amended C3: two collections and two permits; the closing goroutine
parks in `wg.Wait()` and is released by the last `wg.Done()`; both outcomes are received,
in the order of completion, before `Results` is closed and the drain ends. -/
theorem StartDownloads_outcomes_witness :
    StartDownloads examples.twoOnTwoPermits examples.fullSchedule = some examples.finished ∧
    examples.finished.panic = none ∧
    (examples.finished.received.map (fun r => r.Directory)).Perm
      [examples.svenska, examples.finska] ∧
    examples.finished.received.length = 2 := by
  have hrun : StartDownloads examples.twoOnTwoPermits examples.fullSchedule
      = some examples.finished := by decide
  have h := StartDownloads_outcomes examples.twoOnTwoPermits examples.fullSchedule
    examples.finished rfl rfl (by decide) (by decide) hrun
  exact ⟨hrun, h.2.1, (h.2.2.2.1 rfl).1, (h.2.2.2.1 rfl).2.1⟩

/-- With a receiver in another goroutine the counter of `wg` can return to zero between
two `wg.Add(1)`: the `wg.Done()` of the first run releases the parked closing goroutine,
the caller starts the second run and returns, and the closing goroutine then finds a
non-zero counter and panics in `wg.Wait()`. -/
theorem StartDownloads_wait_reused :
    StartDownloads examples.twoOnOnePermitConcurrent examples.reuseSchedule
      = some examples.reused ∧
    waitsForReturn examples.twoOnOnePermitConcurrent State.init examples.reuseSchedule = true ∧
    examples.reused.panic = some .waitGroupReused := by
  decide

/-- C3 as stated fails. (a) One collection is submitted and the output root cannot be
created: `Results` is closed with no outcome. (b) Two collections and one permit, drained
by the caller after `StartDownloads`: the caller blocks on `sem`, the first run blocks on
its send, nothing can move, `Results` is open, and no schedule ever delivers an outcome.
(c) One collection: the closing goroutine leaves `wg.Wait()` before the first `wg.Add(1)`,
`Results` is closed before the run has emitted, and the send panics. -/
theorem StartDownloads_outcomes_counterexample :
    (StartDownloads examples.rootFails [.main, .main, .recvClosed] = some failed3 ∧
      failed3.stuck examples.rootFails ∧
      failed3.closed = true ∧
      failed3.received.length ≠ examples.rootFails.directories.length) ∧
    (StartDownloads examples.twoOnOnePermit examples.blockingSchedule
        = some examples.deadlocked ∧
      examples.deadlocked.stuck examples.twoOnOnePermit ∧
      examples.deadlocked.closed = false ∧
      examples.deadlocked.received.length ≠ examples.twoOnOnePermit.directories.length ∧
      ∀ sched s, StartDownloads examples.twoOnOnePermit sched = some s → s.received = []) ∧
    (StartDownloads examples.oneOnOnePermit examples.earlyCloseSchedule
        = some examples.crashed ∧
      examples.crashed.closed = true ∧
      examples.crashed.panic = some .sendOnClosedChannel ∧
      examples.crashed.received.length ≠ examples.oneOnOnePermit.directories.length) := by
  refine ⟨⟨by decide, failed_step3 examples.rootFails, rfl, by decide⟩,
    ⟨by decide, ?_, rfl, by decide, ?_⟩, ⟨by decide, rfl, rfl, by decide⟩⟩
  · exact stuck_of_single examples.twoOnOnePermit examples.deadlocked
      { dir := examples.svenska, pc := .send (examples.outcome examples.svenska) } rfl
      (by decide) (by decide) (by decide) (by decide) (by decide)
  · exact StartDownloads_never_received examples.twoOnOnePermit rfl rfl (by decide)

end fetcher

namespace strings

theorem indexOpt_prefix_drop (s substr : GoString) (i : Nat)
    (h : indexOpt s substr = some i) : substr <+: s.drop i := by
  induction s generalizing i with
  | nil =>
    simp only [indexOpt] at h
    split at h
    · rename_i hp
      simp only [Option.some.injEq] at h
      subst h
      simpa using List.isPrefixOf_iff_prefix.mp hp
    · simp at h
  | cons c rest ih =>
    rw [indexOpt] at h
    split at h
    · rename_i hp
      simp only [Option.some.injEq] at h
      subst h
      simpa using List.isPrefixOf_iff_prefix.mp hp
    · cases hr : indexOpt rest substr with
      | none => simp [hr] at h
      | some j =>
        simp only [hr, Option.map_some', Option.some.injEq] at h
        subst h
        simpa using ih j hr

theorem indexOpt_le_occurrence (a substr r : GoString) :
    ∃ i, indexOpt (a ++ substr ++ r) substr = some i ∧ i ≤ a.length := by
  induction a with
  | nil =>
    have hp : substr.isPrefixOf (substr ++ r) = true :=
      List.isPrefixOf_iff_prefix.mpr (List.prefix_append _ _)
    refine ⟨0, ?_, Nat.le_refl _⟩
    simp only [List.nil_append]
    cases hs : substr ++ r with
    | nil => rw [hs] at hp; simp [indexOpt, hp]
    | cons c rest => rw [hs] at hp; simp [indexOpt, hp]
  | cons x a ih =>
    obtain ⟨j, hj, hle⟩ := ih
    simp only [List.cons_append, List.append_assoc] at hj ⊢
    rw [indexOpt]
    split
    · exact ⟨0, rfl, Nat.zero_le _⟩
    · exact ⟨j + 1, by simp [hj], by simp only [List.length_cons]; omega⟩

end strings

namespace parser

theorem doctypeOpen_length : doctypeOpen.length = 9 := by decide

theorem RemoveDOCTYPE_of_no_start (t : GoString)
    (h : strings.indexOpt t doctypeOpen = none) : RemoveDOCTYPE t = t := by
  unfold RemoveDOCTYPE strings.Index
  simp [h]

theorem RemoveDOCTYPE_of_no_end (t : GoString) (i : Nat)
    (h : strings.indexOpt t doctypeOpen = some i)
    (h2 : strings.indexOpt (t.drop i) (lit ">") = none) : RemoveDOCTYPE t = t := by
  unfold RemoveDOCTYPE strings.Index
  simp only [h, Int.toNat_ofNat, h2]
  have hne : ¬ ((i : Int) = -1) := by omega
  simp [hne]

theorem RemoveDOCTYPE_of_both (t : GoString) (i j : Nat)
    (h : strings.indexOpt t doctypeOpen = some i)
    (h2 : strings.indexOpt (t.drop i) (lit ">") = some j) :
    RemoveDOCTYPE t = t.take i ++ t.drop (i + j + 1) := by
  unfold RemoveDOCTYPE strings.Index
  simp only [h, Int.toNat_ofNat, h2]
  have hne : ¬ ((i : Int) = -1) := by omega
  have hne2 : ¬ ((j : Int) = -1) := by omega
  have hn : ((i : Int) + (j : Int) + 1).toNat = i + j + 1 := by omega
  simp only [hne, hne2, if_false, hn]

/-- A string is left unchanged by `RemoveDOCTYPE` exactly when it holds no `<!DOCTYPE`
that is followed, anywhere later, by a `>`. -/
theorem RemoveDOCTYPE_fixed_iff (t : GoString) :
    RemoveDOCTYPE t = t ↔
      ¬ ∃ a b c : GoString, t = a ++ lit "<!DOCTYPE" ++ b ++ lit ">" ++ c := by
  cases h : strings.indexOpt t doctypeOpen with
  | none =>
    have hno := (strings.indexOpt_eq_none_iff t doctypeOpen).mp h
    constructor
    · intro _
      rintro ⟨a, b, c, rfl⟩
      exact hno ⟨a, b ++ lit ">" ++ c, by simp [doctypeOpen, List.append_assoc]⟩
    · intro _
      exact RemoveDOCTYPE_of_no_start t h
  | some i =>
    cases h2 : strings.indexOpt (t.drop i) (lit ">") with
    | none =>
      have hno := (strings.indexOpt_eq_none_iff (t.drop i) (lit ">")).mp h2
      constructor
      · intro _
        rintro ⟨a, b, c, rfl⟩
        obtain ⟨i2, hi2, hle⟩ := strings.indexOpt_le_occurrence a doctypeOpen (b ++ lit ">" ++ c)
        have hassoc : a ++ lit "<!DOCTYPE" ++ b ++ lit ">" ++ c
            = a ++ doctypeOpen ++ (b ++ lit ">" ++ c) := by
          simp [doctypeOpen, List.append_assoc]
        rw [hassoc, hi2] at h
        simp only [Option.some.injEq] at h
        subst h
        apply hno
        rw [hassoc, List.append_assoc, List.drop_append_of_le_length hle]
        exact ⟨List.drop i2 a ++ doctypeOpen ++ b, c, by simp [List.append_assoc]⟩
      · intro _
        exact RemoveDOCTYPE_of_no_end t i h h2
    | some j =>
      have hp1 := strings.indexOpt_prefix_drop t doctypeOpen i h
      have hp2 := strings.indexOpt_prefix_drop (t.drop i) (lit ">") j h2
      have hl1 := hp1.length_le
      have hl2 := hp2.length_le
      have hgl : (lit ">").length = 1 := by decide
      simp only [List.length_drop, doctypeOpen_length, hgl] at hl1 hl2
      constructor
      · intro hfix
        exfalso
        have hlen := congrArg List.length hfix
        rw [RemoveDOCTYPE_of_both t i j h h2] at hlen
        simp only [List.length_append, List.length_take, List.length_drop] at hlen
        omega
      · intro hno
        exfalso
        apply hno
        obtain ⟨r, hr⟩ := hp1
        have hmem : (62 : UInt8) ∈ t.drop i := by
          have := hp2.isInfix
          have h3 : lit ">" <:+: t.drop i :=
            this.trans (List.drop_suffix j (t.drop i)).isInfix
          rw [lit_gt] at h3
          exact (singleton_infix_iff_mem 62 (t.drop i)).mp h3
        rw [← hr] at hmem
        have hd : (62 : UInt8) ∉ doctypeOpen := by decide
        have hmr : (62 : UInt8) ∈ r := by
          rcases List.mem_append.mp hmem with h4 | h4
          · exact absurd h4 hd
          · exact h4
        obtain ⟨b, c, rfl⟩ := List.append_of_mem hmr
        refine ⟨t.take i, b, c, ?_⟩
        have := List.take_append_drop i t
        rw [← hr] at this
        refine this.symm.trans ?_
        rw [lit_gt]
        simp [doctypeOpen, List.append_assoc]

end parser

namespace parser

/-- C11 as amended. Stripping twice equals stripping once exactly when the stripped string
holds no `<!DOCTYPE` that is followed by a `>`. This is so for every string without
`<!DOCTYPE`, which stripping leaves unchanged, and for every string whose first
declaration, once removed, leaves no `<!DOCTYPE` behind. -/
theorem RemoveDOCTYPE_idempotent_iff (s : GoString) :
    (RemoveDOCTYPE (RemoveDOCTYPE s) = RemoveDOCTYPE s ↔
      ¬ ∃ a b c : GoString, RemoveDOCTYPE s = a ++ lit "<!DOCTYPE" ++ b ++ lit ">" ++ c) ∧
    (¬ lit "<!DOCTYPE" <:+: s →
      RemoveDOCTYPE s = s ∧ RemoveDOCTYPE (RemoveDOCTYPE s) = RemoveDOCTYPE s) ∧
    (∀ a b c : GoString, s = a ++ lit "<!DOCTYPE" ++ b ++ lit ">" ++ c →
      ¬ lit "<!DOCTYPE" <:+: a ++ lit "<!DOCTYP" → ¬ lit ">" <:+: b →
      ¬ lit "<!DOCTYPE" <:+: a ++ c →
      RemoveDOCTYPE (RemoveDOCTYPE s) = RemoveDOCTYPE s) := by
  refine ⟨RemoveDOCTYPE_fixed_iff (RemoveDOCTYPE s), ?_, ?_⟩
  · intro h
    have h1 := RemoveDOCTYPE_absent s h
    exact ⟨h1, by rw [h1, h1]⟩
  · intro a b c hs h1 h2 h3
    have hr : RemoveDOCTYPE s = a ++ c := by
      rw [hs]
      exact RemoveDOCTYPE_strips a b c h1 h2
    rw [hr]
    exact RemoveDOCTYPE_absent (a ++ c) h3

/-- Instances of the amended C11: a listing with one declaration, and a listing with
none. -/
theorem RemoveDOCTYPE_idempotent_iff_witness :
    RemoveDOCTYPE (RemoveDOCTYPE (lit "<?xml?><!DOCTYPE svn [x]><svn/>"))
      = RemoveDOCTYPE (lit "<?xml?><!DOCTYPE svn [x]><svn/>") ∧
    RemoveDOCTYPE (RemoveDOCTYPE (lit "<svn></svn>")) = RemoveDOCTYPE (lit "<svn></svn>") :=
  ⟨(RemoveDOCTYPE_idempotent_iff (lit "<?xml?><!DOCTYPE svn [x]><svn/>")).2.2
      (lit "<?xml?>") (lit " svn [x]") (lit "<svn/>") (by decide) (by decide) (by decide)
      (by decide),
   ((RemoveDOCTYPE_idempotent_iff (lit "<svn></svn>")).2.1 (by decide)).2⟩

/-- C11 as stated fails: of two declarations one call removes only the first, so a second
call removes more; and removing a declaration can join the text around it into a new
declaration. -/
theorem RemoveDOCTYPE_idempotent_counterexample :
    (RemoveDOCTYPE (lit "<!DOCTYPE a><!DOCTYPE b>x") = lit "<!DOCTYPE b>x" ∧
      RemoveDOCTYPE (RemoveDOCTYPE (lit "<!DOCTYPE a><!DOCTYPE b>x")) = lit "x" ∧
      RemoveDOCTYPE (RemoveDOCTYPE (lit "<!DOCTYPE a><!DOCTYPE b>x"))
        ≠ RemoveDOCTYPE (lit "<!DOCTYPE a><!DOCTYPE b>x")) ∧
    (RemoveDOCTYPE (lit "<!DOC<!DOCTYPE a>TYPE b>x") = lit "<!DOCTYPE b>x" ∧
      RemoveDOCTYPE (RemoveDOCTYPE (lit "<!DOC<!DOCTYPE a>TYPE b>x"))
        ≠ RemoveDOCTYPE (lit "<!DOC<!DOCTYPE a>TYPE b>x")) := by
  decide

end parser

namespace fetcher

/-- C12. When the steps up to the file transfers ran and `metadata.txt` cannot be created
or written, the outcome has `Success = false`, `FileCount` equal to the number of `.xml`
entries whose transfer succeeded, and `TotalBytes = 0`; and whatever the calls of a run
return, an outcome with a non-zero `TotalBytes` has `Success = true`. -/
theorem downloadDirectory_metadata_failure_tally (dm : DownloadManager) (w : World)
    (dir : models.Directory) (resp : Response) (indexContent : GoString) (svn : models.SVN)
    (err : GoError)
    (hmkdir : w.mkdirAll = none) (hget : w.get = .ok resp)
    (hread : w.readAll = .ok indexContent) (hwrite : w.writeFile = none)
    (hparse : w.Unmarshal (parser.RemoveDOCTYPE indexContent) = .ok svn)
    (hmeta : w.createMeta = some err ∨ (w.createMeta = none ∧ w.fprintf = some err)) :
    (downloadDirectory dm w dir).1.Success = false ∧
    (downloadDirectory dm w dir).1.FileCount
      = (okBytes (transferResults w dir (w.Join dm.OutputDir dir.Code)
          (svn.Index.Files.filter (fun f => decide (lit ".xml" <:+ f.Href))) 0)).length ∧
    (downloadDirectory dm w dir).1.TotalBytes = 0 ∧
    (∀ (dm2 : DownloadManager) (w2 : World) (dir2 : models.Directory),
      (downloadDirectory dm2 w2 dir2).1.TotalBytes ≠ 0 →
      (downloadDirectory dm2 w2 dir2).1.Success = true) := by
  have hp := parser.ParseDirectoryContents_ok w.Unmarshal indexContent svn hparse
  have hl := fun st => downloadLoop_tally w dir (w.Join dm.OutputDir dir.Code)
    (svn.Index.Files.filter (fun f => decide (lit ".xml" <:+ f.Href))) 0 st 0
  refine ⟨?_, ?_, ?_, ?_⟩
  · unfold downloadDirectory
    rcases hmeta with hc | ⟨hc, hf⟩
    · simp [hmkdir, hget, hread, hwrite, hp, hc]
    · simp [hmkdir, hget, hread, hwrite, hp, hc, hf]
  · unfold downloadDirectory
    rcases hmeta with hc | ⟨hc, hf⟩
    · simp only [hmkdir, hget, hread, hwrite, hp, hc]
      rw [(hl _ (by rfl)).1]; simp
    · simp only [hmkdir, hget, hread, hwrite, hp, hc, hf]
      rw [(hl _ (by rfl)).1]; simp
  · unfold downloadDirectory
    rcases hmeta with hc | ⟨hc, hf⟩
    · simp [hmkdir, hget, hread, hwrite, hp, hc]
    · simp [hmkdir, hget, hread, hwrite, hp, hc, hf]
  · intro dm2 w2 dir2 h
    unfold downloadDirectory at h ⊢
    repeat' split at h
    all_goals first
      | rfl
      | (simp at h)

/-- An instance of C12: both transfers of the scenario succeed with 5 and 7 bytes and the
write of `metadata.txt` fails; the outcome counts two files and no bytes. -/
theorem downloadDirectory_metadata_failure_tally_witness :
    (downloadDirectory examples.manager
      { examples.world with fprintf := some (lit "no space left on device") }
      examples.svenska).1.Success = false ∧
    (downloadDirectory examples.manager
      { examples.world with fprintf := some (lit "no space left on device") }
      examples.svenska).1.FileCount = 2 ∧
    (downloadDirectory examples.manager
      { examples.world with fprintf := some (lit "no space left on device") }
      examples.svenska).1.TotalBytes = 0 ∧
    (downloadDirectory examples.manager examples.world examples.svenska).1.Success = true := by
  have h := downloadDirectory_metadata_failure_tally examples.manager
    { examples.world with fprintf := some (lit "no space left on device") }
    examples.svenska examples.ok200 examples.listingPage examples.listing
    (lit "no space left on device") rfl rfl rfl rfl (by decide) (Or.inr ⟨rfl, rfl⟩)
  exact ⟨h.1, h.2.1.trans (by decide), h.2.2.1,
    h.2.2.2 examples.manager examples.world examples.svenska (by decide)⟩

end fetcher
